import Mathlib

/-! mmo-server: wire framing, connection registry and command handling.

A shallow embedding of `src/main.cpp`.

* `std::string` is a list of bytes (`Bytes`); a byte is a `Fin 256`.
* `uint32_t` values are naturals reduced `% 2^32`; `int` values are integers
  wrapped into `[-2^31, 2^31)` by `wrap_int`.
* The wire is a log: every `send_packet` call appends the socket and the bytes
  it hands to `send`. Whether the kernel accepts them is outside the program,
  and no caller looks at the return value of `send_packet`.
-/

namespace MmoServer

/-! ## Bytes and text -/

abbrev Byte := Fin 256
abbrev Bytes := List Byte

/-- The byte with value `n % 256`. -/
def byte (n : Nat) : Byte := ⟨n % 256, Nat.mod_lt _ (by decide)⟩

/-- The bytes of a string literal of the source (all of them are ASCII). -/
def ascii (s : String) : Bytes := s.toList.map (fun c => byte c.toNat)

/-! ## Framing: `send_packet` and the loop of `recv_and_process` -/

/-- The sanity limit of `recv_and_process`: `10 * 1024 * 1024`. -/
def MAX_PACKET : Nat := 10 * 1024 * 1024

/-- The four bytes `memcpy` reads from `netlen = htonl(len)`: `len` in network
(big-endian) byte order. -/
def htonl_bytes (len : Nat) : Bytes :=
  [byte (len / 2 ^ 24), byte (len / 2 ^ 16), byte (len / 2 ^ 8), byte len]

/-- The value `ntohl(netlen)` after `memcpy(&netlen, recv_buffer.data(), 4)`. -/
def ntohl_first4 : Bytes → Nat
  | b0 :: b1 :: b2 :: b3 :: _ => b0.val * 2 ^ 24 + b1.val * 2 ^ 16 + b2.val * 2 ^ 8 + b3.val
  | _ => 0

/-- The string `out` that `send_packet` builds and writes:
`len = (uint32_t)payload.size()`, then the payload. -/
def frame (payload : Bytes) : Bytes :=
  htonl_bytes (payload.length % 2 ^ 32) ++ payload

/-- What one run of the `while (true)` loop of `recv_and_process` did: the
payloads it passed to `handle_message` in call order, whether it ended by
`break` (`ok = true`) or by the too-large `return false`, and `recv_buffer` at
that moment. -/
structure Feed where
  payloads : List Bytes
  ok : Bool
  recv_buffer : Bytes
deriving DecidableEq, Repr

/-- Put the payloads handed over earlier in front of a later result. -/
def Feed.after (ps : List Bytes) (r : Feed) : Feed :=
  { r with payloads := ps ++ r.payloads }

/-- The `while (true)` loop of `recv_and_process` on the buffer alone, with one
unit of fuel per iteration; `none` when the fuel runs out. -/
def parse_loop : Nat → Bytes → Option Feed
  | 0, _ => none
  | fuel + 1, buf =>
    if buf.length < 4 then some ⟨[], true, buf⟩
    else
      let len := ntohl_first4 buf
      if len > MAX_PACKET then some ⟨[], false, buf⟩
      else if buf.length < 4 + len then some ⟨[], true, buf⟩
      else
        let payload := (buf.drop 4).take len
        (parse_loop fuel (buf.drop (4 + len))).map (Feed.after [payload])

/-- The loop with fuel for more iterations than it can make: every iteration
erases at least four bytes. -/
def extract_frames (buf : Bytes) : Option Feed := parse_loop (buf.length + 1) buf

/-- The buffer part of one `recv_and_process` call whose `recv` returned the
bytes `chunk` (`r = chunk.length`): `r == 0` is the closed connection and
returns false; otherwise the bytes are appended and the loop runs. -/
def recv_chunk (buf chunk : Bytes) : Option Feed :=
  if chunk.length = 0 then some ⟨[], false, buf⟩
  else extract_frames (buf ++ chunk)

/-- Successive `recv_and_process` calls on one connection, one per chunk. A
call that returns false puts the socket on `to_remove`, so no later chunk is
read. -/
def recv_chunks : Bytes → List Bytes → Option Feed
  | buf, [] => some ⟨[], true, buf⟩
  | buf, c :: cs =>
    match recv_chunk buf c with
    | none => none
    | some r =>
      if r.ok then (recv_chunks r.recv_buffer cs).map (Feed.after r.payloads)
      else some r

/-- Two runs agree: the same payloads reached `handle_message` in the same
order, and both ended in the too-large rejection or both left the same
buffer. -/
def Feed.agree (a b : Feed) : Prop :=
  a.payloads = b.payloads ∧ a.ok = b.ok ∧ (a.ok = true → a.recv_buffer = b.recv_buffer)

/-! ## Machine integers and library text conversions -/

/-- An `int` value: `x` wrapped into `[-2^31, 2^31)`, as `std::atomic<int>`
arithmetic does. -/
def wrap_int (x : Int) : Int := (x + 2 ^ 31) % 2 ^ 32 - 2 ^ 31

/-- The values an `int` can hold. -/
def is_int (x : Int) : Prop := -2 ^ 31 ≤ x ∧ x < 2 ^ 31

instance (x : Int) : Decidable (is_int x) := by unfold is_int; infer_instance

/-- The macro `INVALID_SOCKET` of the non-Windows branch, where `SOCKET` is `int`. -/
def INVALID_SOCKET : Int := -1

/-- The function `std::to_string(int)`, which is also what `operator<<` prints for an
`int`: the decimal digits, with a minus sign for a negative value. -/
def int_to_string (i : Int) : Bytes :=
  (if i < 0 then ascii "-" else []) ++ (Nat.toDigits 10 i.natAbs).map (fun c => byte c.toNat)

/-- The `float` operations of the C++ standard library that the server calls.
They are not code of this repository, so the model takes them as a parameter:
`zero` is the literal `0` of `Vec2`, `extract` is `operator>>` on an
`istringstream` (the value read and the unread rest, `none` when the stream
fails), `to_string` is `std::to_string(float)` and `put` is `operator<<` on an
`ostringstream`. -/
structure FloatLib (F : Type) where
  zero : F
  extract : Bytes → Option (F × Bytes)
  to_string : F → Bytes
  put : F → Bytes

/-- The test `iss >> x >> y`: both extractions succeed. -/
def extract_two {F : Type} (lib : FloatLib F) (args : Bytes) : Option (F × F) :=
  match lib.extract args with
  | none => none
  | some (x, rest) =>
    match lib.extract rest with
    | none => none
    | some (y, _) => some (x, y)

/-! ## Data model -/

structure Vec2 (F : Type) where
  x : F
  y : F
deriving DecidableEq, Repr, Inhabited

/-- The struct `Player`. `mtx` is true while the server thread owns the
player's `std::mutex`. -/
structure Player (F : Type) where
  id : Int
  sock : Int
  name : Bytes
  pos : Vec2 F
  recv_buffer : Bytes
  mtx : Bool
deriving DecidableEq, Repr, Inhabited

/-- A `std::shared_ptr<Player>`: the index of the object in `Server.objects`. -/
abbrev Ptr := Nat

/-- A `std::map` with `int` keys and `shared_ptr<Player>` values: the entries
in iteration order, which is ascending key order. -/
abbrev PtrMap := List (Int × Ptr)

/-- The assignment `m[k] = v`: the entry is inserted at its place in key order or
overwritten. -/
def PtrMap.assign : PtrMap → Int → Ptr → PtrMap
  | [], k, v => [(k, v)]
  | (k', v') :: rest, k, v =>
    if k < k' then (k, v) :: (k', v') :: rest
    else if k = k' then (k, v) :: rest
    else (k', v') :: PtrMap.assign rest k v

/-- The call `m.erase(k)`. -/
def PtrMap.erase (m : PtrMap) (k : Int) : PtrMap := m.filter (fun e => e.1 ≠ k)

/-- The call `m.find(k)`: the mapped pointer, `none` for `end()`. -/
def PtrMap.find (m : PtrMap) (k : Int) : Option Ptr := m.lookup k

/-- The class `World`. `mtx_` is true while the server thread owns it. -/
structure World where
  players_ : PtrMap
  mtx_ : Bool
deriving DecidableEq, Repr

/-- The members of `Server` that the network thread works on, the `Player`
objects its `shared_ptr`s point to, and what the thread did to the outside:
`wire` holds, per `send_packet` call, the socket and the bytes handed to
`send`; `closed` holds the sockets passed to `close_socket`. -/
structure Server (F : Type) where
  next_player_id_ : Int
  listener_ : Int
  sock_to_player_ : PtrMap
  sock_mtx_ : Bool
  world_ : World
  running_ : Bool
  objects : List (Player F)
  wire : List (Int × Bytes)
  closed : List Int
deriving DecidableEq, Repr

/-- The server once `start()` has opened the listening socket `listener`:
`next_player_id_(1)`, empty maps, no lock held. -/
def Server.init (F : Type) (listener : Int) : Server F :=
  { next_player_id_ := 1, listener_ := listener, sock_to_player_ := [], sock_mtx_ := false,
    world_ := ⟨[], false⟩, running_ := true, objects := [], wire := [], closed := [] }

/-- The object `*p`. Every pointer the server holds comes from `make_shared`
and so lies inside `objects`. -/
def Server.deref {F : Type} [Inhabited F] (sv : Server F) (p : Ptr) : Player F :=
  sv.objects.getD p default

/-- A write through `p`: the object is replaced by `f` of it. -/
def Server.update {F : Type} [Inhabited F] (sv : Server F) (p : Ptr)
    (f : Player F → Player F) : Server F :=
  { sv with objects := sv.objects.set p (f (sv.deref p)) }

/-- How a piece of the network thread's code ends: it returns `val` in state
`st`; or it calls `lock()` on a `std::mutex` the thread already owns, in state
`st`, which is undefined behaviour and on POSIX a deadlock; or the model ran
out of fuel. -/
inductive Run (σ α : Type) where
  | done (val : α) (st : σ)
  | relock (st : σ)
  | out_of_fuel
deriving DecidableEq, Repr

/-- Sequencing: the continuation runs only when the first part returned. -/
def Run.bind {σ α β : Type} (r : Run σ α) (k : α → σ → Run σ β) : Run σ β :=
  match r with
  | .done a s => k a s
  | .relock s => .relock s
  | .out_of_fuel => .out_of_fuel

/-! ## Sending -/

/-- The function `send_packet`: `out` is built and handed to `send`. -/
def send_packet {F : Type} (s : Int) (payload : Bytes) (sv : Server F) : Server F :=
  { sv with wire := sv.wire ++ [(s, frame payload)] }

/-- A loop `send_packet(s, msg)` over sockets, in order. -/
def send_each {F : Type} (socks : List Int) (msg : Bytes) (sv : Server F) : Server F :=
  socks.foldl (fun acc s => send_packet s msg acc) sv

/-- The method `Server::broadcast`: a `lock_guard` on `sock_mtx_` around the loop. -/
def broadcast {F : Type} (msg : Bytes) (sv : Server F) : Run (Server F) Unit :=
  if sv.sock_mtx_ then .relock sv
  else
    let sv1 := { sv with sock_mtx_ := true }
    let sv2 := send_each (sv1.sock_to_player_.map Prod.fst) msg sv1
    .done () { sv2 with sock_mtx_ := false }

/-- The method `Server::broadcast_except`: as `broadcast`, with `continue` on
`except_sock`. -/
def broadcast_except {F : Type} (except_sock : Int) (msg : Bytes) (sv : Server F) :
    Run (Server F) Unit :=
  if sv.sock_mtx_ then .relock sv
  else
    let sv1 := { sv with sock_mtx_ := true }
    let sv2 := send_each ((sv1.sock_to_player_.map Prod.fst).filter (fun s => s ≠ except_sock))
      msg sv1
    .done () { sv2 with sock_mtx_ := false }

/-- The method `Server::broadcast_raw`. -/
def broadcast_raw {F : Type} (raw : Bytes) (sv : Server F) : Run (Server F) Unit :=
  if sv.sock_mtx_ then .relock sv
  else
    let sv1 := { sv with sock_mtx_ := true }
    let sv2 := send_each (sv1.sock_to_player_.map Prod.fst) raw sv1
    .done () { sv2 with sock_mtx_ := false }

/-! ## World -/

/-- The method `World::add_player`: `players_[p->id] = p` under `mtx_`. -/
def add_player {F : Type} [Inhabited F] (p : Ptr) (sv : Server F) : Run (Server F) Unit :=
  if sv.world_.mtx_ then .relock sv
  else .done () { sv with world_ :=
    { sv.world_ with players_ := sv.world_.players_.assign (sv.deref p).id p } }

/-- The method `World::remove_player`: `players_.erase(id)` under `mtx_`. -/
def remove_player {F : Type} (id : Int) (sv : Server F) : Run (Server F) Unit :=
  if sv.world_.mtx_ then .relock sv
  else .done () { sv with world_ := { sv.world_ with players_ := sv.world_.players_.erase id } }

/-- The method `World::snapshot_players`: the mapped pointers in map order. -/
def snapshot_players {F : Type} (sv : Server F) : Run (Server F) (List Ptr) :=
  if sv.world_.mtx_ then .relock sv
  else .done (sv.world_.players_.map Prod.snd) sv

/-! ## Server -/

/-- The `Player` that `make_shared<Player>(pid, cs)` constructs. -/
def new_player {F : Type} (lib : FloatLib F) (pid cs : Int) : Player F :=
  ⟨pid, cs, ascii "Player" ++ int_to_string pid, ⟨lib.zero, lib.zero⟩, [], false⟩

/-- The method `Server::accept_new`, where `accept` returned `cs`. -/
def accept_new {F : Type} [Inhabited F] (lib : FloatLib F) (cs : Int) (sv : Server F) :
    Run (Server F) Unit :=
  if cs = INVALID_SOCKET then .done () sv
  else
    let pid := sv.next_player_id_
    let p : Ptr := sv.objects.length
    let name := ascii "Player" ++ int_to_string pid
    let sv1 := { sv with
      next_player_id_ := wrap_int (pid + 1),
      objects := sv.objects ++ [new_player lib pid cs] }
    if sv1.sock_mtx_ then .relock sv1
    else
      let sv2 := { sv1 with sock_to_player_ := sv1.sock_to_player_.assign cs p }
      (add_player p sv2).bind fun _ sv3 =>
        broadcast_except cs (name ++ ascii " has joined the world.\n")
          (send_packet cs (ascii "WELCOME " ++ name ++ ascii "\n") sv3)

/-- The statement `if (!t.empty() && t.back() == c) t.pop_back();`. -/
def pop_back_if (c : Byte) (t : Bytes) : Bytes :=
  if t ≠ [] ∧ t.getLast? = some c then t.dropLast else t

/-- The start of `handle_message`: one trailing `\n` is removed, then one
trailing `\r`. -/
def trim_line (msg : Bytes) : Bytes := pop_back_if 13 (pop_back_if 10 msg)

/-- The method `Server::handle_message`. The test `trimmed.rfind(c, 0) == 0`
holds exactly when `c` is a prefix of `trimmed`. -/
def handle_message {F : Type} [Inhabited F] (lib : FloatLib F) (p : Ptr) (msg : Bytes)
    (sv : Server F) : Run (Server F) Unit :=
  let trimmed := trim_line msg
  if trimmed = [] then .done () sv
  else if (ascii "/move ").isPrefixOf trimmed then
    match extract_two lib (trimmed.drop 6) with
    | some (x, y) =>
      if (sv.deref p).mtx then .relock sv
      else
        let sv1 := sv.update p (fun pl => { pl with mtx := true })
        let sv2 := sv1.update p (fun pl => { pl with pos := ⟨x, y⟩ })
        (broadcast_except (sv2.deref p).sock
          ((sv2.deref p).name ++ ascii " moved to " ++ lib.to_string x ++ ascii "," ++
            lib.to_string y ++ ascii "\n") sv2).bind
          fun _ sv3 => .done () (sv3.update p (fun pl => { pl with mtx := false }))
    | none => .done () (send_packet (sv.deref p).sock (ascii "ERROR bad /move format\n") sv)
  else if (ascii "/name ").isPrefixOf trimmed then
    let newname := trimmed.drop 6
    if newname ≠ [] then
      let old := (sv.deref p).name
      let sv1 := sv.update p (fun pl => { pl with name := newname })
      broadcast_except (sv1.deref p).sock (old ++ ascii " is now " ++ newname ++ ascii "\n") sv1
    else .done () sv
  else if (ascii "/say ").isPrefixOf trimmed then
    broadcast ((sv.deref p).name ++ ascii ": " ++ trimmed.drop 5 ++ ascii "\n") sv
  else .done () (send_packet (sv.deref p).sock (ascii "UNKNOWN_CMD\n") sv)

/-- What `recv` returned: `r` bytes, at most the 4096 of `buf` (`r == 0` is the
closed connection), the would-block error, or another error. -/
inductive RecvResult where
  | bytes (b : Bytes)
  | would_block
  | error
deriving DecidableEq, Repr

/-- The `while (true)` loop of `recv_and_process` on the server state, with
one unit of fuel per iteration. -/
def recv_loop {F : Type} [Inhabited F] (lib : FloatLib F) (p : Ptr) :
    Nat → Server F → Run (Server F) Bool
  | 0, _ => .out_of_fuel
  | fuel + 1, sv =>
    let buf := (sv.deref p).recv_buffer
    if buf.length < 4 then .done true sv
    else
      let len := ntohl_first4 buf
      if len > MAX_PACKET then .done false sv
      else if buf.length < 4 + len then .done true sv
      else
        let payload := (buf.drop 4).take len
        let sv1 := sv.update p (fun pl => { pl with recv_buffer := pl.recv_buffer.drop (4 + len) })
        (handle_message lib p payload sv1).bind fun _ sv2 => recv_loop lib p fuel sv2

/-- The method `Server::recv_and_process`, where `recv` returned `r`. -/
def recv_and_process {F : Type} [Inhabited F] (lib : FloatLib F) (p : Ptr) (r : RecvResult)
    (sv : Server F) : Run (Server F) Bool :=
  match r with
  | .would_block => .done true sv
  | .error => .done false sv
  | .bytes b =>
    if b.length = 0 then .done false sv
    else
      let sv1 := sv.update p (fun pl => { pl with recv_buffer := pl.recv_buffer ++ b })
      recv_loop lib p ((sv1.deref p).recv_buffer.length + 1) sv1

/-- The text `tick` streams for one player: `id name x y` and a newline. -/
def snapshot_line {F : Type} (lib : FloatLib F) (pl : Player F) : Bytes :=
  int_to_string pl.id ++ ascii " " ++ pl.name ++ ascii " " ++ lib.put pl.pos.x ++ ascii " " ++
    lib.put pl.pos.y ++ ascii "\n"

/-- The `for` loop of `tick`: per player a `lock_guard` on `p->mtx` around the
line written to `oss`. -/
def tick_lines {F : Type} [Inhabited F] (lib : FloatLib F) :
    List Ptr → Bytes → Server F → Run (Server F) Bytes
  | [], oss, sv => .done oss sv
  | p :: ps, oss, sv =>
    if (sv.deref p).mtx then .relock sv
    else
      let sv1 := sv.update p (fun pl => { pl with mtx := true })
      let oss1 := oss ++ snapshot_line lib (sv1.deref p)
      tick_lines lib ps oss1 (sv1.update p (fun pl => { pl with mtx := false }))

/-- The method `Server::tick`. -/
def tick {F : Type} [Inhabited F] (lib : FloatLib F) (sv : Server F) : Run (Server F) Unit :=
  (snapshot_players sv).bind fun players sv1 =>
    (tick_lines lib players (ascii "SNAP\n") sv1).bind fun snap sv2 =>
      broadcast_raw snap sv2

/-- The method `Server::drop_connection`. The pointer found in the map is
never null, so the `if (p)` branch is always taken. -/
def drop_connection {F : Type} [Inhabited F] (s : Int) (sv : Server F) : Run (Server F) Unit :=
  if sv.sock_mtx_ then .relock sv
  else
    match sv.sock_to_player_.find s with
    | none => .done () sv
    | some p =>
      let sv1 := { sv with sock_to_player_ := sv.sock_to_player_.erase s }
      (remove_player (sv1.deref p).id sv1).bind fun _ sv2 =>
        (broadcast ((sv2.deref p).name ++ ascii " has left the world.\n") sv2).bind fun _ sv3 =>
          .done () { sv3 with closed := sv3.closed ++ [s] }

/-- The method `Server::cleanup_sockets`. -/
def cleanup_sockets {F : Type} (sv : Server F) : Run (Server F) Unit :=
  if sv.sock_mtx_ then .relock sv
  else
    let sv1 := { sv with
      closed := sv.closed ++ sv.sock_to_player_.map Prod.fst,
      sock_to_player_ := [] }
    if sv1.listener_ ≠ INVALID_SOCKET then
      .done () { sv1 with closed := sv1.closed ++ [sv1.listener_], listener_ := INVALID_SOCKET }
    else .done () sv1

/-- What `select` did: it failed with `EINTR`, failed otherwise, or returned
with these sockets readable. -/
inductive SelectResult where
  | interrupted
  | failed
  | returned (readable : List Int)
deriving DecidableEq, Repr

/-- What the operating system answers during one `do_network_io` call:
the outcome of `select`, the value of `accept` if it is called, and the outcome
of `recv` per socket. -/
structure Pass where
  select : SelectResult
  accepted : Int
  recv : Int → RecvResult

/-- The test `FD_ISSET(s, &readfds)` after `select`: `s` was put into the set
and is readable. -/
def fd_isset (listener : Int) (fds readable : List Int) (s : Int) : Bool :=
  decide ((s = listener ∨ s ∈ fds) ∧ s ∈ readable)

/-- The loop of `do_network_io` over `sock_to_player_`, run with `sock_mtx_`
held; it returns `to_remove`. -/
def poll_clients {F : Type} [Inhabited F] (lib : FloatLib F) (env : Pass) (isset : Int → Bool) :
    List (Int × Ptr) → List Int → Server F → Run (Server F) (List Int)
  | [], to_remove, sv => .done to_remove sv
  | (s, player) :: rest, to_remove, sv =>
    if isset s then
      (recv_and_process lib player (env.recv s) sv).bind fun keep sv1 =>
        poll_clients lib env isset rest (if keep then to_remove else to_remove ++ [s]) sv1
    else poll_clients lib env isset rest to_remove sv

/-- The last loop of `do_network_io`: `drop_connection` per queued socket. -/
def drop_all {F : Type} [Inhabited F] : List Int → Server F → Run (Server F) Unit
  | [], sv => .done () sv
  | s :: rest, sv => (drop_connection s sv).bind fun _ sv1 => drop_all rest sv1

/-- The method `Server::do_network_io`. -/
def do_network_io {F : Type} [Inhabited F] (lib : FloatLib F) (env : Pass) (sv : Server F) :
    Run (Server F) Unit :=
  if sv.sock_mtx_ then .relock sv
  else
    let fds := sv.sock_to_player_.map Prod.fst
    match env.select with
    | .interrupted => .done () sv
    | .failed => .done () { sv with running_ := false }
    | .returned readable =>
      let isset := fd_isset sv.listener_ fds readable
      (if isset sv.listener_ then accept_new lib env.accepted sv else .done () sv).bind
        fun _ sv1 =>
          if sv1.sock_mtx_ then .relock sv1
          else
            (poll_clients lib env isset sv1.sock_to_player_ [] { sv1 with sock_mtx_ := true }).bind
              fun to_remove sv2 => drop_all to_remove { sv2 with sock_mtx_ := false }

/-- The `handle_message` calls of one run of the loop of `recv_and_process`
for the payloads `ms`: before each call the frame is erased from the buffer. -/
def deliver {F : Type} [Inhabited F] (lib : FloatLib F) (p : Ptr) :
    List Bytes → Server F → Run (Server F) Unit
  | [], sv => .done () sv
  | m :: ms, sv =>
    (handle_message lib p m
      (sv.update p (fun pl => { pl with recv_buffer := pl.recv_buffer.drop (4 + m.length) }))).bind
      fun _ sv1 => deliver lib p ms sv1

/-! ## Runs of connection events -/

/-- A connection event: `accept_new` in which `accept` returned `cs`, or
`drop_connection(s)`. -/
inductive Event where
  | accept (cs : Int)
  | drop (s : Int)
deriving DecidableEq, Repr

def step {F : Type} [Inhabited F] (lib : FloatLib F) : Event → Server F → Run (Server F) Unit
  | .accept cs, sv => accept_new lib cs sv
  | .drop s, sv => drop_connection s sv

/-- The events one after the other. -/
def run {F : Type} [Inhabited F] (lib : FloatLib F) :
    List Event → Server F → Run (Server F) Unit
  | [], sv => .done () sv
  | e :: es, sv => (step lib e sv).bind fun _ sv1 => run lib es sv1

/-- Whether the event is an `accept_new` call that got a connection. -/
def Event.accepted : Event → Bool
  | .accept cs => decide (cs ≠ INVALID_SOCKET)
  | .drop _ => false

/-- The number of connections accepted in the events. -/
def accepts (evs : List Event) : Nat := evs.countP Event.accepted

/-- A client connects on socket 4 and is dropped again, `n` times over. -/
def reconnects (n : Nat) : List Event :=
  (List.replicate n [Event.accept 4, Event.drop 4]).flatten

/-! ## Reading the state -/

/-- The players in `World`, in the iteration order of `players_`. -/
def world_players {F : Type} [Inhabited F] (sv : Server F) : List (Player F) :=
  sv.world_.players_.map (fun e => sv.deref e.2)

/-- The header line `SNAP` followed by one line per player. -/
def snapshot_text {F : Type} (lib : FloatLib F) (players : List (Player F)) : Bytes :=
  ascii "SNAP\n" ++ (players.map (snapshot_line lib)).flatten

/-- One frame with payload `msg` on each of the sockets, in order. -/
def frames_to (socks : List Int) (msg : Bytes) : List (Int × Bytes) :=
  socks.map (fun s => (s, frame msg))

/-- The sockets registered in `sock_to_player_`, in map order. -/
def registered {F : Type} (sv : Server F) : List Int := sv.sock_to_player_.map Prod.fst

/-- The state between two connection events of a run that began with
`Server.init`: no lock is held; the `k`-th object made has the id that the
counter had then, `wrap_int (1 + k)`; the maps hold pointers to objects, and
`players_` holds each under the id of its object. -/
structure Settled {F : Type} [Inhabited F] (sv : Server F) : Prop where
  sock_free : sv.sock_mtx_ = false
  world_free : sv.world_.mtx_ = false
  players_free : ∀ pl ∈ sv.objects, pl.mtx = false
  next_id : sv.next_player_id_ = wrap_int (1 + (sv.objects.length : Int))
  object_id : ∀ j, j < sv.objects.length → (sv.deref j).id = wrap_int (1 + (j : Int))
  player_ptr : ∀ e ∈ sv.world_.players_, e.2 < sv.objects.length ∧ (sv.deref e.2).id = e.1
  sock_ptr : ∀ e ∈ sv.sock_to_player_, e.2 < sv.objects.length
  players_sorted : (sv.world_.players_.map Prod.fst).Pairwise (· < ·)
  socks_sorted : (sv.sock_to_player_.map Prod.fst).Pairwise (· < ·)

/-- The state `accept_new` returns in when no lock is held. -/
def accepted_state {F : Type} [Inhabited F] (lib : FloatLib F) (cs : Int) (sv : Server F) :
    Server F :=
  { sv with
    next_player_id_ := wrap_int (sv.next_player_id_ + 1),
    objects := sv.objects ++ [new_player lib sv.next_player_id_ cs],
    sock_to_player_ := sv.sock_to_player_.assign cs sv.objects.length,
    world_ := { sv.world_ with
      players_ := sv.world_.players_.assign sv.next_player_id_ sv.objects.length },
    wire := sv.wire ++
      [(cs, frame (ascii "WELCOME " ++ (ascii "Player" ++ int_to_string sv.next_player_id_) ++
        ascii "\n"))] ++
      frames_to (((sv.sock_to_player_.assign cs sv.objects.length).map Prod.fst).filter
          (fun s => s ≠ cs))
        ((ascii "Player" ++ int_to_string sv.next_player_id_) ++
          ascii " has joined the world.\n") }

/-- The state `drop_connection(s)` returns in when no lock is held and `s` is
registered with player `p`. -/
def dropped_state {F : Type} [Inhabited F] (s : Int) (p : Ptr) (sv : Server F) : Server F :=
  { sv with
    sock_to_player_ := sv.sock_to_player_.erase s,
    world_ := { sv.world_ with players_ := sv.world_.players_.erase (sv.deref p).id },
    wire := sv.wire ++ frames_to ((sv.sock_to_player_.erase s).map Prod.fst)
      ((sv.deref p).name ++ ascii " has left the world.\n"),
    closed := sv.closed ++ [s] }

/-- Nobody is connected, no lock is held, and the counter stands at
`wrap_int (1 + k)` after `k` objects. -/
structure Idle {F : Type} (sv : Server F) : Prop where
  sock_free : sv.sock_mtx_ = false
  world_free : sv.world_.mtx_ = false
  no_socks : sv.sock_to_player_ = []
  no_players : sv.world_.players_ = []
  next_id : sv.next_player_id_ = wrap_int (1 + (sv.objects.length : Int))

/-- The players in `World` are the players of the registered connections. -/
def registry_matches_world {F : Type} (sv : Server F) : Prop :=
  ∀ p : Ptr, p ∈ sv.world_.players_.map Prod.snd ↔ p ∈ sv.sock_to_player_.map Prod.snd

/-- A settled state in which every connection is registered under the socket
of its player, and `World` holds exactly the registered players. -/
structure Linked {F : Type} [Inhabited F] (sv : Server F) : Prop where
  settled : Settled sv
  sock_key : ∀ e ∈ sv.sock_to_player_, (sv.deref e.2).sock = e.1
  same_players : registry_matches_world sv

/-- Every `accept` of the run returns a handle that is not registered at that
moment, as the operating system does. -/
def fresh_handles {F : Type} [Inhabited F] (lib : FloatLib F) : List Event → Server F → Prop
  | [], _ => True
  | e :: es, sv =>
    (match e with
      | .accept cs => cs ∉ registered sv
      | .drop _ => True) ∧
    (match step lib e sv with
      | .done _ sv1 => fresh_handles lib es sv1
      | _ => True)

/-- The state in which the loop of `do_network_io` calls `handle_message` for
the first frame of player `p`, whose payload has `n` bytes: `sock_mtx_` is
held by `do_network_io`, the received bytes `b` were appended to the player's
buffer, and the frame was erased from it. -/
def call_state {F : Type} [Inhabited F] (sv : Server F) (p : Ptr) (b : Bytes) (n : Nat) :
    Server F :=
  (({ sv with sock_mtx_ := true } : Server F).update p
    (fun pl => { pl with recv_buffer := pl.recv_buffer ++ b })).update p
    (fun pl => { pl with recv_buffer := pl.recv_buffer.drop (4 + n) })

/-! ## A stand-in float library

`Fixed6` is a number with six exact decimals, counted in millionths. It
replaces `float` where the model is run on concrete inputs; it is not the C++
library. -/

structure Fixed6 where
  micro : Int
deriving DecidableEq, Repr, Inhabited

def is_space (b : Byte) : Bool := b.val = 32 || (9 ≤ b.val && b.val ≤ 13)

def is_digit (b : Byte) : Bool := 48 ≤ b.val && b.val ≤ 57

/-- The number a run of decimal digits denotes. -/
def digits_value (ds : Bytes) : Nat := ds.foldl (fun acc d => acc * 10 + (d.val - 48)) 0

/-- The decimal digits of `n`. -/
def nat_digits (n : Nat) : Bytes := (Nat.toDigits 10 n).map (fun c => byte c.toNat)

/-- Reading a decimal number: white space is skipped, then come an optional
sign, digits, and an optional point with digits; at least one digit is needed. -/
def Fixed6.extract (s : Bytes) : Option (Fixed6 × Bytes) :=
  let s0 := s.dropWhile is_space
  let neg := decide (s0.head? = some 45)
  let s1 := if s0.head? = some 45 ∨ s0.head? = some 43 then s0.drop 1 else s0
  let ip := s1.takeWhile is_digit
  let s2 := s1.dropWhile is_digit
  let fp := if s2.head? = some 46 then (s2.drop 1).takeWhile is_digit else []
  let s3 := if s2.head? = some 46 then (s2.drop 1).dropWhile is_digit else s2
  if ip = [] ∧ fp = [] then none
  else
    let m : Int := digits_value ip * 1000000 + digits_value ((fp ++ List.replicate 6 48).take 6)
    some (⟨if neg then -m else m⟩, s3)

/-- Six digits after the point. -/
def pad6 (n : Nat) : Bytes := List.replicate (6 - (nat_digits n).length) 48 ++ nat_digits n

/-- Fixed notation with six decimals, the format of `std::to_string(float)`. -/
def Fixed6.to_string (v : Fixed6) : Bytes :=
  (if v.micro < 0 then ascii "-" else []) ++ nat_digits (v.micro.natAbs / 1000000) ++
    ascii "." ++ pad6 (v.micro.natAbs % 1000000)

/-- Shortest notation: no trailing zeros and no point for a whole number. -/
def Fixed6.put (v : Fixed6) : Bytes :=
  (if v.micro < 0 then ascii "-" else []) ++ nat_digits (v.micro.natAbs / 1000000) ++
    (if v.micro.natAbs % 1000000 = 0 then []
     else ascii "." ++ ((pad6 (v.micro.natAbs % 1000000)).reverse.dropWhile (· = 48)).reverse)

def fixed6_lib : FloatLib Fixed6 :=
  { zero := ⟨0⟩, extract := Fixed6.extract, to_string := Fixed6.to_string, put := Fixed6.put }

/-- The server after two clients connected on sockets 4 and 5 (listener 3). -/
def two_players : Server Fixed6 :=
  { next_player_id_ := 3, listener_ := 3, sock_to_player_ := [(4, 0), (5, 1)],
    sock_mtx_ := false, world_ := ⟨[(1, 0), (2, 1)], false⟩, running_ := true,
    objects := [⟨1, 4, ascii "Player1", ⟨⟨0⟩, ⟨0⟩⟩, [], false⟩,
                ⟨2, 5, ascii "Player2", ⟨⟨0⟩, ⟨0⟩⟩, [], false⟩],
    wire := [(4, frame (ascii "WELCOME Player1\n")), (5, frame (ascii "WELCOME Player2\n")),
             (4, frame (ascii "Player2 has joined the world.\n"))],
    closed := [] }

/-- The server with the players `(1, "A", 0, 0)` and `(2, "B", 1, 1)` on sockets
4 and 5. -/
def ab_players : Server Fixed6 :=
  { two_players with
    objects := [⟨1, 4, ascii "A", ⟨⟨0⟩, ⟨0⟩⟩, [], false⟩,
                ⟨2, 5, ascii "B", ⟨⟨1000000⟩, ⟨1000000⟩⟩, [], false⟩] }

/-- One `do_network_io` call in which `select` reports socket 4 readable and
`recv` on it returns one whole frame with payload `msg`. -/
def one_frame_on_4 (msg : Bytes) : Pass :=
  { select := .returned [4], accepted := INVALID_SOCKET, recv := fun _ => .bytes (frame msg) }

/-! # Theorems -/

/-! ## Framing -/

theorem parse_loop_fuel (f1 : Nat) : ∀ (f2 : Nat) (buf : Bytes),
    buf.length < f1 → buf.length < f2 → parse_loop f1 buf = parse_loop f2 buf := by
  induction f1 with
  | zero => intro f2 buf h; omega
  | succ n ih =>
    intro f2 buf h1 h2
    cases f2 with
    | zero => omega
    | succ m =>
      simp only [parse_loop]
      split_ifs with ha hb hc
      · rfl
      · rfl
      · rfl
      · have hd : (List.drop (4 + ntohl_first4 buf) buf).length < n := by
          simp only [List.length_drop]; omega
        have he : (List.drop (4 + ntohl_first4 buf) buf).length < m := by
          simp only [List.length_drop]; omega
        rw [ih m _ hd he]

/-- One iteration of the loop, stated on `extract_frames`. -/
theorem extract_frames_unfold (buf : Bytes) :
    extract_frames buf =
      if buf.length < 4 then some ⟨[], true, buf⟩
      else if ntohl_first4 buf > MAX_PACKET then some ⟨[], false, buf⟩
      else if buf.length < 4 + ntohl_first4 buf then some ⟨[], true, buf⟩
      else (extract_frames (buf.drop (4 + ntohl_first4 buf))).map
        (Feed.after [(buf.drop 4).take (ntohl_first4 buf)]) := by
  have h0 : extract_frames buf = parse_loop (buf.length + 1) buf := rfl
  rw [h0, parse_loop]
  dsimp only
  split_ifs with ha hb hc
  · rfl
  · rfl
  · rfl
  · have hd : (List.drop (4 + ntohl_first4 buf) buf).length < buf.length := by
      simp only [List.length_drop]; omega
    simp only [extract_frames]
    rw [parse_loop_fuel buf.length ((List.drop (4 + ntohl_first4 buf) buf).length + 1) _ hd
      (Nat.lt_succ_self _)]

/-- The loop always ends: the fuel of `extract_frames` is never used up. -/
theorem extract_frames_total (n : Nat) : ∀ buf : Bytes, buf.length ≤ n →
    ∃ r, extract_frames buf = some r := by
  induction n with
  | zero =>
    intro buf h
    rw [extract_frames_unfold]
    have : buf.length < 4 := by omega
    simp [this]
  | succ n ih =>
    intro buf h
    rw [extract_frames_unfold]
    split_ifs with ha hb hc
    · exact ⟨_, rfl⟩
    · exact ⟨_, rfl⟩
    · exact ⟨_, rfl⟩
    · have hd : (List.drop (4 + ntohl_first4 buf) buf).length ≤ n := by
        simp only [List.length_drop]; omega
      obtain ⟨r, hr⟩ := ih _ hd
      exact ⟨_, by rw [hr]; rfl⟩

theorem byte_val (n : Nat) : (byte n).val = n % 256 := rfl

theorem ntohl_htonl (len : Nat) (h : len < 2 ^ 32) (rest : Bytes) :
    ntohl_first4 (htonl_bytes len ++ rest) = len := by
  simp only [htonl_bytes, List.cons_append, List.nil_append, ntohl_first4, byte_val]
  omega

theorem htonl_bytes_length (len : Nat) : (htonl_bytes len).length = 4 := rfl

theorem frame_length (p : Bytes) : (frame p).length = 4 + p.length := by
  simp [frame, htonl_bytes_length]

theorem extract_frames_short (buf : Bytes) (h : buf.length < 4) :
    extract_frames buf = some ⟨[], true, buf⟩ := by
  rw [extract_frames_unfold, if_pos h]

theorem max_packet_lt : MAX_PACKET < 2 ^ 32 := by decide

theorem ntohl_frame (p : Bytes) : ntohl_first4 (frame p) = p.length % 2 ^ 32 :=
  ntohl_htonl _ (Nat.mod_lt _ (by decide)) p

theorem drop_four_frame (p : Bytes) : (frame p).drop 4 = p := by
  simp [frame, htonl_bytes]

/-- The loop on a frame whose length field is within the limit: the field
counts `len % 2^32` bytes, which are handed over, and the loop goes on with
what follows them. -/
theorem extract_frames_frame (p : Bytes) (h : p.length % 2 ^ 32 ≤ MAX_PACKET) :
    extract_frames (frame p) =
      (extract_frames (p.drop (p.length % 2 ^ 32))).map
        (Feed.after [p.take (p.length % 2 ^ 32)]) := by
  have hle : p.length % 2 ^ 32 ≤ p.length := Nat.mod_le _ _
  rw [extract_frames_unfold, ntohl_frame, frame_length]
  rw [if_neg (by omega), if_neg (by omega), if_neg (by omega)]
  rw [drop_four_frame, ← List.drop_drop, drop_four_frame]

/-- C1. Framing round-trip: for every payload `P` of at most 10 MiB, the
bytes `send_packet` writes for `P`, received into an empty `recv_buffer`, make
the extraction loop of `recv_and_process` hand exactly `P` to
`handle_message`, end without error and leave the buffer empty. -/
theorem frame_roundtrip (P : Bytes) (h : P.length ≤ MAX_PACKET) :
    recv_chunk [] (frame P) = some ⟨[P], true, []⟩ := by
  have hlt : P.length < 2 ^ 32 := lt_of_le_of_lt h max_packet_lt
  have hmod : P.length % 2 ^ 32 = P.length := Nat.mod_eq_of_lt hlt
  have hne : ¬ (frame P).length = 0 := by rw [frame_length]; omega
  rw [recv_chunk, if_neg hne, List.nil_append, extract_frames_frame P (by omega), hmod]
  rw [List.drop_length, List.take_length, extract_frames_short [] (by decide)]
  rfl

theorem frame_roundtrip_witness :
    (ascii "/say hi").length ≤ MAX_PACKET ∧
      recv_chunk [] (frame (ascii "/say hi")) = some ⟨[ascii "/say hi"], true, []⟩ :=
  ⟨by decide, frame_roundtrip (ascii "/say hi") (by decide)⟩

/-- The loop on a frame whose length field exceeds the limit. -/
theorem extract_frames_too_large (p : Bytes) (h : MAX_PACKET < p.length % 2 ^ 32) :
    extract_frames (frame p) = some ⟨[], false, frame p⟩ := by
  rw [extract_frames_unfold, ntohl_frame, frame_length]
  rw [if_neg (by omega), if_pos h]

/-- C3, as amended. For every payload `P` whose length, as the 4-byte length
field carries it (`len(P) mod 2^32`), is greater than 10 MiB, and so for every
`P` with `10 MiB < len(P) < 2^32`: the frame `send_packet` writes for `P`,
received into an empty buffer, makes the loop of `recv_and_process` return
false, and nothing is handed to `handle_message`. -/
theorem oversized_frame_rejected (P : Bytes) (h : MAX_PACKET < P.length % 2 ^ 32) :
    recv_chunk [] (frame P) = some ⟨[], false, frame P⟩ := by
  have hne : ¬ (frame P).length = 0 := by rw [frame_length]; omega
  rw [recv_chunk, if_neg hne, List.nil_append]
  exact extract_frames_too_large P h

theorem oversized_frame_rejected_witness :
    MAX_PACKET < (List.replicate (MAX_PACKET + 1) (0 : Byte)).length % 2 ^ 32 ∧
      recv_chunk [] (frame (List.replicate (MAX_PACKET + 1) (0 : Byte))) =
        some ⟨[], false, frame (List.replicate (MAX_PACKET + 1) (0 : Byte))⟩ :=
  ⟨by rw [List.length_replicate]; decide,
   oversized_frame_rejected _ (by rw [List.length_replicate]; decide)⟩

/-- A payload of `n` bytes `0xFF` where `n` is a positive multiple of `2^32`:
the length field is 0, so the loop hands over an empty payload and then
rejects the four `0xFF` bytes that follow as a length. -/
theorem wrapped_length_frame (n : Nat) (hn : n % 2 ^ 32 = 0) (h4 : 4 ≤ n) :
    recv_chunk [] (frame (List.replicate n (255 : Byte))) =
      some ⟨[[]], false, List.replicate n (255 : Byte)⟩ := by
  have hne : ¬ (frame (List.replicate n (255 : Byte))).length = 0 := by
    rw [frame_length]; omega
  rw [recv_chunk, if_neg hne, List.nil_append, extract_frames_frame _ (by
    rw [List.length_replicate, hn]; exact Nat.zero_le _)]
  rw [List.length_replicate, hn, List.drop_zero, List.take_zero, extract_frames_unfold]
  have hpre : ntohl_first4 (List.replicate n (255 : Byte)) = 2 ^ 32 - 1 := by
    obtain ⟨m, rfl⟩ : ∃ m, n = m + 4 := ⟨n - 4, by omega⟩
    simp only [List.replicate_succ, ntohl_first4]
    rfl
  rw [List.length_replicate, if_neg (by omega), hpre, if_pos (by decide)]
  rfl

/-- C3, counterexample. A payload of `2^32` bytes is longer than 10 MiB, yet
its frame carries the length `(uint32_t)2^32 = 0`: the loop hands an empty
payload to `handle_message` before it rejects anything. -/
theorem oversized_frame_counterexample :
    MAX_PACKET < (List.replicate (2 ^ 32) (255 : Byte)).length ∧
      recv_chunk [] (frame (List.replicate (2 ^ 32) (255 : Byte))) =
        some ⟨[[]], false, List.replicate (2 ^ 32) (255 : Byte)⟩ ∧
      ¬ ∃ r, recv_chunk [] (frame (List.replicate (2 ^ 32) (255 : Byte))) = some r ∧
        r.ok = false ∧ r.payloads = [] := by
  have h := wrapped_length_frame (2 ^ 32) (by decide) (by decide)
  refine ⟨by rw [List.length_replicate]; decide, h, ?_⟩
  rintro ⟨r, hr, -, hp⟩
  rw [h] at hr
  cases hr
  cases hp

theorem ntohl_first4_append (buf more : Bytes) (h : 4 ≤ buf.length) :
    ntohl_first4 (buf ++ more) = ntohl_first4 buf := by
  match buf, h with
  | b0 :: b1 :: b2 :: b3 :: rest, _ => rfl

theorem Feed.after_nil (r : Feed) : Feed.after [] r = r := rfl

theorem Feed.after_after (ps qs : List Bytes) (r : Feed) :
    Feed.after ps (Feed.after qs r) = Feed.after (ps ++ qs) r := by
  simp [Feed.after]

theorem map_after_nil (x : Option Feed) : x.map (Feed.after []) = x := by
  cases x <;> rfl

theorem map_after_after (ps qs : List Bytes) (x : Option Feed) :
    (x.map (Feed.after qs)).map (Feed.after ps) = x.map (Feed.after (ps ++ qs)) := by
  cases x with
  | none => rfl
  | some r => simp [Feed.after_after]

/-- More bytes behind a buffer the loop has already run over: the payloads of
the first run come first, and the loop goes on from the leftover, or stays
rejected. -/
theorem extract_frames_append (n : Nat) : ∀ (buf more : Bytes) (r : Feed),
    buf.length ≤ n → extract_frames buf = some r →
    extract_frames (buf ++ more) =
      if r.ok then (extract_frames (r.recv_buffer ++ more)).map (Feed.after r.payloads)
      else some ⟨r.payloads, false, r.recv_buffer ++ more⟩ := by
  induction n with
  | zero =>
    intro buf more r hlen hr
    rw [extract_frames_short buf (by omega)] at hr
    cases hr
    simp [map_after_nil]
  | succ n ih =>
    intro buf more r hlen hr
    rw [extract_frames_unfold] at hr
    split_ifs at hr with ha hb hc
    · cases hr
      simp [map_after_nil]
    · cases hr
      rw [extract_frames_unfold, ntohl_first4_append buf more (by omega),
        if_neg (by rw [List.length_append]; omega), if_pos hb]
      simp
    · cases hr
      simp [map_after_nil]
    · obtain ⟨r', hr', rfl⟩ := Option.map_eq_some'.mp hr
      have hd : (List.drop (4 + ntohl_first4 buf) buf).length ≤ n := by
        simp only [List.length_drop]; omega
      have h4 : ntohl_first4 buf ≤ (List.drop 4 buf).length := by
        simp only [List.length_drop]; omega
      rw [extract_frames_unfold, ntohl_first4_append buf more (by omega),
        if_neg (by rw [List.length_append]; omega), if_neg hb,
        if_neg (by rw [List.length_append]; omega),
        List.drop_append_of_le_length (by omega), List.drop_append_of_le_length (by omega),
        List.take_append_of_le_length h4, ih _ more r' hd hr']
      cases hok : r'.ok
      · simp [Feed.after, hok]
      · simp only [Feed.after, hok, if_true, map_after_after]

/-- What an unrejected run leaves in the buffer holds no complete frame and
no oversized length: running the loop over it again changes nothing. -/
theorem extract_frames_leftover (n : Nat) : ∀ (buf : Bytes) (r : Feed),
    buf.length ≤ n → extract_frames buf = some r → r.ok = true →
    extract_frames r.recv_buffer = some ⟨[], true, r.recv_buffer⟩ := by
  induction n with
  | zero =>
    intro buf r hlen hr _
    have hs := extract_frames_short buf (by omega)
    rw [hs] at hr
    cases hr
    exact hs
  | succ n ih =>
    intro buf r hlen hr hok
    have hu := extract_frames_unfold buf
    rw [hr] at hu
    split_ifs at hu with ha hb hc
    · cases hu
      exact extract_frames_short buf ha
    · cases hu
      cases hok
    · cases hu
      show extract_frames buf = _
      rw [extract_frames_unfold, if_neg ha, if_neg hb, if_pos hc]
    · obtain ⟨r', hr', rfl⟩ := Option.map_eq_some'.mp hu.symm
      have hd : (List.drop (4 + ntohl_first4 buf) buf).length ≤ n := by
        simp only [List.length_drop]; omega
      exact ih _ r' hd hr' hok

theorem Feed.agree_after (ps : List Bytes) (a b : Feed) (h : a.agree b) :
    (Feed.after ps a).agree (Feed.after ps b) := by
  obtain ⟨h1, h2, h3⟩ := h
  exact ⟨by simp [Feed.after, h1], h2, h3⟩

/-- Chunked reception from a settled buffer against one run of the loop over
the buffer followed by all the chunks. -/
theorem recv_chunks_flatten (cs : List Bytes) : ∀ (buf : Bytes),
    (∀ c ∈ cs, c ≠ []) → extract_frames buf = some ⟨[], true, buf⟩ →
    ∃ r1 r2, recv_chunks buf cs = some r1 ∧
      extract_frames (buf ++ cs.flatten) = some r2 ∧ r1.agree r2 := by
  induction cs with
  | nil =>
    intro buf _ hbuf
    exact ⟨_, _, rfl, by simpa using hbuf, rfl, rfl, fun _ => rfl⟩
  | cons c cs ih =>
    intro buf hne hbuf
    have hc : ¬ c.length = 0 := by
      have := hne c (List.mem_cons_self _ _)
      simpa using this
    obtain ⟨r, hr⟩ := extract_frames_total _ (buf ++ c) le_rfl
    have happ := extract_frames_append _ (buf ++ c) cs.flatten r le_rfl hr
    rw [List.append_assoc] at happ
    rw [List.flatten_cons, happ]
    simp only [recv_chunks, recv_chunk, if_neg hc, hr]
    cases hok : r.ok
    · exact ⟨r, ⟨r.payloads, false, r.recv_buffer ++ cs.flatten⟩, by simp [hok], by simp [hok],
        rfl, by simp [hok], by simp [hok]⟩
    · have hset := extract_frames_leftover _ (buf ++ c) r le_rfl hr hok
      obtain ⟨r1, r2, h1, h2, hag⟩ :=
        ih r.recv_buffer (fun x hx => hne x (List.mem_cons_of_mem _ hx)) hset
      refine ⟨Feed.after r.payloads r1, Feed.after r.payloads r2, ?_, ?_, ?_⟩
      · simp [h1]
      · simp [h2]
      · exact Feed.agree_after _ _ _ hag

/-- C2. Reassembly is chunk-size-independent: two ways of cutting one byte
stream into non-empty chunks, each received chunk by chunk into an initially
empty `recv_buffer` with the extraction loop run after every append, hand the
same payloads to `handle_message` in the same order, and both end in the
too-large rejection or both leave the same buffer. One byte at a time and all
at once are two such cuts. -/
theorem reassembly_chunk_independent (cs1 cs2 : List Bytes)
    (h1 : ∀ c ∈ cs1, c ≠ []) (h2 : ∀ c ∈ cs2, c ≠ [])
    (hsame : cs1.flatten = cs2.flatten) :
    ∃ r1 r2, recv_chunks [] cs1 = some r1 ∧ recv_chunks [] cs2 = some r2 ∧ r1.agree r2 := by
  have hnil : extract_frames [] = some ⟨[], true, []⟩ := extract_frames_short [] (by decide)
  obtain ⟨a, a', ha, ha', haa⟩ := recv_chunks_flatten cs1 [] h1 hnil
  obtain ⟨b, b', hb, hb', hbb⟩ := recv_chunks_flatten cs2 [] h2 hnil
  rw [hsame, hb'] at ha'
  cases ha'
  refine ⟨a, b, ha, hb, ?_⟩
  obtain ⟨p1, o1, f1⟩ := haa
  obtain ⟨p2, o2, f2⟩ := hbb
  exact ⟨p1.trans p2.symm, o1.trans o2.symm,
    fun h => (f1 h).trans (f2 (by rw [o2, ← o1]; exact h)).symm⟩

theorem reassembly_chunk_independent_witness :
    (∀ c ∈ (frame (ascii "/say hi") ++ frame (ascii "x") ++ [0, 0]).map (fun b => [b]), c ≠ []) ∧
    (∀ c ∈ [frame (ascii "/say hi") ++ frame (ascii "x") ++ [0, 0]], c ≠ []) ∧
    ((frame (ascii "/say hi") ++ frame (ascii "x") ++ [0, 0]).map (fun b => [b])).flatten =
      [frame (ascii "/say hi") ++ frame (ascii "x") ++ [0, 0]].flatten ∧
    (∃ r1 r2,
      recv_chunks [] ((frame (ascii "/say hi") ++ frame (ascii "x") ++ [0, 0]).map
        (fun b => [b])) = some r1 ∧
      recv_chunks [] [frame (ascii "/say hi") ++ frame (ascii "x") ++ [0, 0]] = some r2 ∧
      r1.agree r2) :=
  ⟨by decide, by decide, by decide,
   reassembly_chunk_independent _ _ (by decide) (by decide) (by decide)⟩

/-! ## Commands -/

@[simp] theorem Run.bind_done {σ α β : Type} (a : α) (s : σ) (k : α → σ → Run σ β) :
    (Run.done a s).bind k = k a s := rfl

@[simp] theorem Run.bind_relock {σ α β : Type} (s : σ) (k : α → σ → Run σ β) :
    (Run.relock s : Run σ α).bind k = Run.relock s := rfl

@[simp] theorem Run.bind_out_of_fuel {σ α β : Type} (k : α → σ → Run σ β) :
    (Run.out_of_fuel : Run σ α).bind k = Run.out_of_fuel := rfl

theorem pop_back_if_append (c : Byte) (a r : Bytes) (h : a.getLast? ≠ some c) :
    pop_back_if c (a ++ r) = a ++ pop_back_if c r := by
  rcases List.eq_nil_or_concat r with rfl | ⟨L, b, rfl⟩
  · simp [pop_back_if, h]
  · by_cases hb : b = c
    · subst hb
      simp [pop_back_if, ← List.append_assoc]
    · simp [pop_back_if, ← List.append_assoc, hb]

/-- Stripping the line terminator leaves a command word in front untouched. -/
theorem trim_line_append (a r : Bytes) (h10 : a.getLast? ≠ some 10)
    (h13 : a.getLast? ≠ some 13) :
    trim_line (a ++ r) = a ++ trim_line r := by
  unfold trim_line
  rw [pop_back_if_append 10 a r h10, pop_back_if_append 13 a _ h13]

theorem trim_line_move (r : Bytes) :
    trim_line (ascii "/move " ++ r) = ascii "/move " ++ trim_line r :=
  trim_line_append _ _ (by decide) (by decide)

theorem trim_line_say (r : Bytes) :
    trim_line (ascii "/say " ++ r) = ascii "/say " ++ trim_line r :=
  trim_line_append _ _ (by decide) (by decide)

theorem send_each_eq {F : Type} (socks : List Int) (msg : Bytes) : ∀ sv : Server F,
    send_each socks msg sv = { sv with wire := sv.wire ++ frames_to socks msg } := by
  induction socks with
  | nil => intro sv; simp [send_each, frames_to]
  | cons s rest ih =>
    intro sv
    have h := ih (send_packet s msg sv)
    simp only [send_each, List.foldl_cons, frames_to] at h ⊢
    rw [h]
    simp [send_packet]

theorem broadcast_eq {F : Type} (msg : Bytes) (sv : Server F) (h : sv.sock_mtx_ = false) :
    broadcast msg sv = .done () { sv with wire := sv.wire ++ frames_to (registered sv) msg } := by
  obtain ⟨a, b, c, d, e, f, g, w, x⟩ := sv
  simp only at h
  subst h
  simp [broadcast, send_each_eq, registered]

theorem broadcast_raw_eq {F : Type} (msg : Bytes) (sv : Server F) (h : sv.sock_mtx_ = false) :
    broadcast_raw msg sv =
      .done () { sv with wire := sv.wire ++ frames_to (registered sv) msg } := by
  obtain ⟨a, b, c, d, e, f, g, w, x⟩ := sv
  simp only at h
  subst h
  simp [broadcast_raw, send_each_eq, registered]

theorem broadcast_except_eq {F : Type} (ex : Int) (msg : Bytes) (sv : Server F)
    (h : sv.sock_mtx_ = false) :
    broadcast_except ex msg sv = .done ()
      { sv with wire := sv.wire ++ frames_to ((registered sv).filter (fun s => s ≠ ex)) msg } := by
  obtain ⟨a, b, c, d, e, f, g, w, x⟩ := sv
  simp only at h
  subst h
  simp [broadcast_except, send_each_eq, registered]

theorem two_players_reached :
    (accept_new fixed6_lib 4 (Server.init Fixed6 3)).bind
      (fun _ sv => accept_new fixed6_lib 5 sv) = .done () two_players := by
  decide

/-- C6. A payload that begins with `/move ` and whose arguments, once the line
terminator is stripped, do not read as two floats: `handle_message` returns
with every player object and both maps as they were, and the only thing sent
is one frame `ERROR bad /move format\n` on the sender's own socket. -/
theorem bad_move_replies_error {F : Type} [Inhabited F] (lib : FloatLib F) (p : Ptr)
    (r : Bytes) (sv : Server F) (h : extract_two lib (trim_line r) = none) :
    handle_message lib p (ascii "/move " ++ r) sv =
      .done () { sv with wire := sv.wire ++
        [((sv.deref p).sock, frame (ascii "ERROR bad /move format\n"))] } := by
  have hd : List.drop 6 (ascii "/move " ++ trim_line r) = trim_line r := rfl
  have hne : ¬ (ascii "/move " ++ trim_line r = []) := by
    intro hc; cases hc
  have hpre : (ascii "/move ").isPrefixOf (ascii "/move " ++ trim_line r) = true := by
    simp
  simp only [handle_message, trim_line_move, hd, h, if_neg hne, hpre, if_true, send_packet]

theorem bad_move_replies_error_witness :
    extract_two fixed6_lib (trim_line (ascii "abc 1")) = none ∧
      handle_message fixed6_lib 0 (ascii "/move " ++ ascii "abc 1") two_players =
        .done () { two_players with wire := two_players.wire ++
          [((two_players.deref 0).sock, frame (ascii "ERROR bad /move format\n"))] } :=
  ⟨by decide, bad_move_replies_error fixed6_lib 0 (ascii "abc 1") _ (by decide)⟩

/-! ## Player objects -/

theorem getD_set_self {α : Type} (l : List α) (p : Nat) (a d : α) :
    (l.set p a).getD p d = if p < l.length then a else d := by
  rw [List.getD_eq_getElem?_getD, List.getElem?_set]
  by_cases h : p < l.length
  · simp [h]
  · simp [h]

theorem getD_set_other {α : Type} (l : List α) (p q : Nat) (a d : α) (h : p ≠ q) :
    (l.set p a).getD q d = l.getD q d := by
  rw [List.getD_eq_getElem?_getD, List.getD_eq_getElem?_getD, List.getElem?_set]
  simp [h]

theorem set_getD_self {α : Type} (l : List α) (p : Nat) (d : α) :
    l.set p (l.getD p d) = l := by
  apply List.ext_getElem?
  intro i
  rw [List.getElem?_set]
  by_cases h : p = i
  · subst h
    by_cases h2 : p < l.length
    · simp [h2, List.getD_eq_getElem?_getD, List.getElem?_eq_getElem h2]
    · simp [h2, List.getElem?_eq_none (Nat.le_of_not_lt h2)]
  · simp [h]

theorem deref_update_same {F : Type} [Inhabited F] (sv : Server F) (p : Ptr)
    (f : Player F → Player F) (h : p < sv.objects.length) :
    (sv.update p f).deref p = f (sv.deref p) := by
  simp [Server.update, Server.deref, getD_set_self, h]

theorem deref_update_invalid {F : Type} [Inhabited F] (sv : Server F) (p : Ptr)
    (f : Player F → Player F) (h : ¬ p < sv.objects.length) :
    (sv.update p f).deref p = sv.deref p := by
  simp only [Server.update, Server.deref, getD_set_self, h, if_false]
  rw [List.getD_eq_getElem?_getD, List.getElem?_eq_none (Nat.le_of_not_lt h)]
  rfl

theorem deref_update_other {F : Type} [Inhabited F] (sv : Server F) (p q : Ptr)
    (f : Player F → Player F) (h : p ≠ q) :
    (sv.update p f).deref q = sv.deref q := by
  simp [Server.update, Server.deref, getD_set_other, h]

/-- Taking and releasing a free player lock leaves the state as it was. -/
theorem lock_unlock_player {F : Type} [Inhabited F] (sv : Server F) (p : Ptr)
    (h : (sv.deref p).mtx = false) :
    (sv.update p (fun pl => { pl with mtx := true })).update p
      (fun pl => { pl with mtx := false }) = sv := by
  obtain ⟨a, b, c, d, e, f, objs, w, x⟩ := sv
  simp only [Server.update, Server.deref, getD_set_self, List.set_set] at h ⊢
  congr
  by_cases hp : p < objs.length
  · simp only [hp, if_true]
    have : ({ objs.getD p default with mtx := false } : Player F) = objs.getD p default := by
      generalize objs.getD p default = pl at h ⊢
      cases pl
      simp only at h
      subst h
      rfl
    rw [this, set_getD_self]
  · rw [List.set_eq_of_length_le (Nat.le_of_not_lt hp)]

theorem snapshot_line_locked {F : Type} [Inhabited F] (lib : FloatLib F) (sv : Server F)
    (p : Ptr) :
    snapshot_line lib ((sv.update p (fun pl => { pl with mtx := true })).deref p) =
      snapshot_line lib (sv.deref p) := by
  by_cases hp : p < sv.objects.length
  · rw [deref_update_same sv p _ hp]
    rfl
  · rw [deref_update_invalid sv p _ hp]

/-- The loop of `tick` when no listed player's lock is held: it returns the
lines of the players in order and leaves the state as it was. -/
theorem tick_lines_eq {F : Type} [Inhabited F] (lib : FloatLib F) (sv : Server F) :
    ∀ (ps : List Ptr) (oss : Bytes), (∀ p ∈ ps, (sv.deref p).mtx = false) →
      tick_lines lib ps oss sv =
        .done (oss ++ (ps.map (fun p => snapshot_line lib (sv.deref p))).flatten) sv := by
  intro ps
  induction ps with
  | nil => intro oss _; simp [tick_lines]
  | cons p ps ih =>
    intro oss h
    have hp := h p (List.mem_cons_self _ _)
    simp only [tick_lines, hp, snapshot_line_locked, lock_unlock_player sv p hp]
    rw [ih _ (fun q hq => h q (List.mem_cons_of_mem _ hq))]
    simp

/-! ## The loop of `recv_and_process` on the server state -/

theorem update_length {F : Type} [Inhabited F] (sv : Server F) (p : Ptr)
    (f : Player F → Player F) : (sv.update p f).objects.length = sv.objects.length := by
  simp [Server.update]

theorem update_keeps_buffer {F : Type} [Inhabited F] (sv : Server F) (p q : Ptr)
    (f : Player F → Player F) (hf : ∀ pl, (f pl).recv_buffer = pl.recv_buffer) :
    ((sv.update p f).deref q).recv_buffer = (sv.deref q).recv_buffer := by
  by_cases hq : p = q
  · subst hq
    by_cases hp : p < sv.objects.length
    · rw [deref_update_same sv p f hp, hf]
    · rw [deref_update_invalid sv p f hp]
  · rw [deref_update_other sv p q f hq]

theorem buffer_after_mtx {F : Type} [Inhabited F] (sv : Server F) (p q : Ptr) (b : Bool) :
    ((sv.update p (fun pl => { pl with mtx := b })).deref q).recv_buffer =
      (sv.deref q).recv_buffer :=
  update_keeps_buffer sv p q _ (fun _ => rfl)

theorem buffer_after_pos {F : Type} [Inhabited F] (sv : Server F) (p q : Ptr) (v : Vec2 F) :
    ((sv.update p (fun pl => { pl with pos := v })).deref q).recv_buffer =
      (sv.deref q).recv_buffer :=
  update_keeps_buffer sv p q _ (fun _ => rfl)

theorem buffer_after_name {F : Type} [Inhabited F] (sv : Server F) (p q : Ptr) (n : Bytes) :
    ((sv.update p (fun pl => { pl with name := n })).deref q).recv_buffer =
      (sv.deref q).recv_buffer :=
  update_keeps_buffer sv p q _ (fun _ => rfl)

theorem broadcast_except_done {F : Type} [Inhabited F] (ex : Int) (msg : Bytes)
    (sv sv' : Server F) (h : broadcast_except ex msg sv = .done () sv') :
    sv'.objects = sv.objects := by
  cases hs : sv.sock_mtx_
  · rw [broadcast_except_eq ex msg sv hs] at h
    cases h
    rfl
  · simp [broadcast_except, hs] at h

theorem broadcast_done {F : Type} [Inhabited F] (msg : Bytes)
    (sv sv' : Server F) (h : broadcast msg sv = .done () sv') :
    sv'.objects = sv.objects := by
  cases hs : sv.sock_mtx_
  · rw [broadcast_eq msg sv hs] at h
    cases h
    rfl
  · simp [broadcast, hs] at h

theorem deref_congr {F : Type} [Inhabited F] (sv sv' : Server F) (h : sv'.objects = sv.objects)
    (q : Ptr) : sv'.deref q = sv.deref q := by
  simp [Server.deref, h]

/-- Whatever `handle_message` does, it makes no object and leaves every
`recv_buffer` as it is. -/
theorem handle_message_keeps_buffers {F : Type} [Inhabited F] (lib : FloatLib F) (p : Ptr)
    (msg : Bytes) (sv sv' : Server F) (h : handle_message lib p msg sv = .done () sv') :
    sv'.objects.length = sv.objects.length ∧
      ∀ q, (sv'.deref q).recv_buffer = (sv.deref q).recv_buffer := by
  unfold handle_message at h
  dsimp only at h
  by_cases h1 : trim_line msg = []
  · rw [if_pos h1] at h
    cases h
    exact ⟨rfl, fun _ => rfl⟩
  rw [if_neg h1] at h
  by_cases h2 : (ascii "/move ").isPrefixOf (trim_line msg) = true
  · rw [if_pos h2] at h
    cases hx : extract_two lib (List.drop 6 (trim_line msg)) with
    | none =>
      rw [hx] at h
      cases h
      exact ⟨rfl, fun _ => rfl⟩
    | some xy =>
      obtain ⟨x, y⟩ := xy
      rw [hx] at h
      dsimp only at h
      by_cases hm : (sv.deref p).mtx = true
      · rw [if_pos hm] at h
        cases h
      · rw [if_neg hm] at h
        generalize hb : broadcast_except _ _ _ = res at h
        cases res with
        | done u s3 =>
          cases h
          have ho := broadcast_except_done _ _ _ _ hb
          refine ⟨?_, ?_⟩
          · rw [update_length, ho, update_length, update_length]
          · intro q
            rw [buffer_after_mtx, deref_congr _ _ ho, buffer_after_pos, buffer_after_mtx]
        | relock s3 => cases h
        | out_of_fuel => cases h
  rw [if_neg h2] at h
  by_cases h3 : (ascii "/name ").isPrefixOf (trim_line msg) = true
  · rw [if_pos h3] at h
    by_cases h4 : List.drop 6 (trim_line msg) ≠ []
    · rw [if_pos h4] at h
      have ho := broadcast_except_done _ _ _ _ h
      refine ⟨?_, ?_⟩
      · rw [ho, update_length]
      · intro q
        rw [deref_congr _ _ ho, buffer_after_name]
    · rw [if_neg h4] at h
      cases h
      exact ⟨rfl, fun _ => rfl⟩
  rw [if_neg h3] at h
  by_cases h5 : (ascii "/say ").isPrefixOf (trim_line msg) = true
  · rw [if_pos h5] at h
    have ho := broadcast_done _ _ _ h
    exact ⟨by rw [ho], fun q => by rw [deref_congr _ _ ho]⟩
  · rw [if_neg h5] at h
    cases h
    exact ⟨rfl, fun _ => rfl⟩

/-- The loop of `recv_and_process` on the server state hands to
`handle_message` exactly the payloads that the loop on the buffer alone
extracts, in that order, and returns the same flag; it stops early only where
`handle_message` does not return. -/
theorem recv_loop_eq_deliver {F : Type} [Inhabited F] (lib : FloatLib F) (p : Ptr)
    (fuel : Nat) : ∀ (sv : Server F) (r : Feed), p < sv.objects.length →
      parse_loop fuel (sv.deref p).recv_buffer = some r →
      recv_loop lib p fuel sv =
        (deliver lib p r.payloads sv).bind fun _ sv' => .done r.ok sv' := by
  induction fuel with
  | zero => intro sv r _ h; simp [parse_loop] at h
  | succ n ih =>
    intro sv r hp h
    rw [parse_loop] at h
    rw [recv_loop]
    dsimp only at h ⊢
    split_ifs at h ⊢ with ha hb hc
    · cases h; rfl
    · cases h; rfl
    · cases h; rfl
    · obtain ⟨r', hr', rfl⟩ := Option.map_eq_some'.mp h
      have hlen : (List.take (ntohl_first4 (sv.deref p).recv_buffer)
          (List.drop 4 (sv.deref p).recv_buffer)).length =
            ntohl_first4 (sv.deref p).recv_buffer := by
        rw [List.length_take, List.length_drop]
        omega
      simp only [Feed.after, List.singleton_append, deliver, hlen]
      cases hh : handle_message lib p
          (List.take (ntohl_first4 (sv.deref p).recv_buffer) (List.drop 4 (sv.deref p).recv_buffer))
          (sv.update p (fun pl =>
            { pl with recv_buffer :=
                List.drop (4 + ntohl_first4 (sv.deref p).recv_buffer) pl.recv_buffer })) with
      | done u s2 =>
        obtain ⟨hl2, hb2⟩ := handle_message_keeps_buffers lib p _ _ _ hh
        have hbuf : (s2.deref p).recv_buffer =
            List.drop (4 + ntohl_first4 (sv.deref p).recv_buffer) (sv.deref p).recv_buffer := by
          rw [hb2 p, deref_update_same sv p _ hp]
        simp only [Run.bind_done]
        rw [ih s2 r' (by rw [hl2, update_length]; exact hp) (by rw [hbuf]; exact hr')]
        rfl
      | relock s2 => rfl
      | out_of_fuel => rfl

/-- One `recv_and_process` call that received the bytes `b`: the payloads
handed to `handle_message` and the value returned are those of `recv_chunk` on
the player's buffer. The loop does not run out of fuel. -/
theorem recv_and_process_eq_deliver {F : Type} [Inhabited F] (lib : FloatLib F) (p : Ptr)
    (b : Bytes) (sv : Server F) (hp : p < sv.objects.length) :
    ∃ r, recv_chunk (sv.deref p).recv_buffer b = some r ∧
      recv_and_process lib p (.bytes b) sv =
        if b.length = 0 then .done false sv
        else (deliver lib p r.payloads
          (sv.update p (fun pl => { pl with recv_buffer := pl.recv_buffer ++ b }))).bind
            fun _ sv' => .done r.ok sv' := by
  by_cases hb : b.length = 0
  · exact ⟨⟨[], false, (sv.deref p).recv_buffer⟩, by simp [recv_chunk, hb],
      by simp [recv_and_process, hb]⟩
  · obtain ⟨r, hr⟩ := extract_frames_total _ ((sv.deref p).recv_buffer ++ b) le_rfl
    refine ⟨r, by simp [recv_chunk, hb, hr], ?_⟩
    have hbuf : ((sv.update p (fun pl => { pl with recv_buffer := pl.recv_buffer ++ b })).deref
        p).recv_buffer = (sv.deref p).recv_buffer ++ b := by
      rw [deref_update_same sv p _ hp]
    simp only [recv_and_process, hb, if_false]
    rw [recv_loop_eq_deliver lib p _ _ r (by rw [update_length]; exact hp)
      (by rw [hbuf]; exact hr)]

/-! ## Tick -/

/-- C8. With no lock held and `players_` a well-formed map keyed by player id,
`tick` sends one frame to every registered connection; its payload is the
line `SNAP` followed by one line `id name x y` per player in `World`, in map
order, which is ascending id order. With no players the payload is `SNAP\n`;
with the players `(1, "A", 0, 0)` and `(2, "B", 1, 1)`, where the library prints
the coordinates as `0` and `1`, it is `SNAP\n1 A 0 0\n2 B 1 1\n`. -/
theorem tick_snapshot {F : Type} [Inhabited F] (lib : FloatLib F) (sv : Server F)
    (hs : sv.sock_mtx_ = false) (hw : sv.world_.mtx_ = false)
    (hp : ∀ pl ∈ world_players sv, pl.mtx = false)
    (hsorted : (sv.world_.players_.map Prod.fst).Pairwise (· < ·))
    (hkey : ∀ e ∈ sv.world_.players_, (sv.deref e.2).id = e.1) :
    tick lib sv = .done ()
        { sv with wire :=
            sv.wire ++ frames_to (registered sv) (snapshot_text lib (world_players sv)) } ∧
      ((world_players sv).map (fun pl => pl.id)).Pairwise (· < ·) ∧
      snapshot_text lib [] = ascii "SNAP\n" ∧
      ∀ (a b : F) (s1 s2 : Int) (b1 b2 : Bytes) (m1 m2 : Bool),
        lib.put a = ascii "0" → lib.put b = ascii "1" →
        snapshot_text lib [⟨1, s1, ascii "A", ⟨a, a⟩, b1, m1⟩, ⟨2, s2, ascii "B", ⟨b, b⟩, b2, m2⟩] =
          ascii "SNAP\n1 A 0 0\n2 B 1 1\n" := by
  refine ⟨?_, ?_, rfl, ?_⟩
  · have hl : ∀ p ∈ sv.world_.players_.map Prod.snd, (sv.deref p).mtx = false := by
      intro p hmem
      obtain ⟨e, he, rfl⟩ := List.mem_map.mp hmem
      exact hp _ (List.mem_map.mpr ⟨e, he, rfl⟩)
    simp only [tick, snapshot_players, hw, Bool.false_eq_true, if_false, Run.bind_done,
      tick_lines_eq lib sv _ _ hl, broadcast_raw_eq _ sv hs, snapshot_text, world_players,
      List.map_map]
    rfl
  · have : (world_players sv).map (fun pl => pl.id) = sv.world_.players_.map Prod.fst := by
      simp only [world_players, List.map_map]
      exact List.map_congr_left (fun e he => hkey e he)
    rw [this]
    exact hsorted
  · intro a b s1 s2 b1 b2 m1 m2 ha hb
    simp only [snapshot_text, snapshot_line, List.map_cons, List.map_nil, List.flatten_cons,
      List.flatten_nil, ha, hb]
    decide

theorem tick_snapshot_witness :
    (ab_players.sock_mtx_ = false ∧ ab_players.world_.mtx_ = false ∧
      (∀ pl ∈ world_players ab_players, pl.mtx = false) ∧
      (ab_players.world_.players_.map Prod.fst).Pairwise (· < ·) ∧
      (∀ e ∈ ab_players.world_.players_, (ab_players.deref e.2).id = e.1)) ∧
    tick fixed6_lib ab_players = .done ()
      { ab_players with wire := ab_players.wire ++ frames_to (registered ab_players)
                                  (snapshot_text fixed6_lib (world_players ab_players)) } ∧
    snapshot_text fixed6_lib (world_players ab_players) = ascii "SNAP\n1 A 0 0\n2 B 1 1\n" ∧
    registered ab_players = [4, 5] :=
  ⟨⟨by decide, by decide, by decide, by decide, by decide⟩,
   (tick_snapshot fixed6_lib ab_players (by decide) (by decide) (by decide) (by decide)
     (by decide)).1,
   by decide, by decide⟩

/-! ## Commands that broadcast -/

/-- A well-formed `/move` handled while `sock_mtx_` is held: the position is
written under the player's lock, and then `broadcast_except` locks `sock_mtx_`
a second time. Nothing has been sent. -/
theorem handle_message_move_relock {F : Type} [Inhabited F] (lib : FloatLib F) (p : Ptr)
    (r : Bytes) (sv : Server F) (x y : F) (h : extract_two lib (trim_line r) = some (x, y))
    (hm : (sv.deref p).mtx = false) (hs : sv.sock_mtx_ = true) :
    handle_message lib p (ascii "/move " ++ r) sv =
      .relock ((sv.update p (fun pl => { pl with mtx := true })).update p
        (fun pl => { pl with pos := ⟨x, y⟩ })) := by
  have hd : List.drop 6 (ascii "/move " ++ trim_line r) = trim_line r := rfl
  have hne : ¬ (ascii "/move " ++ trim_line r = []) := by
    intro hc; cases hc
  have hpre : (ascii "/move ").isPrefixOf (ascii "/move " ++ trim_line r) = true := by
    simp
  have hs2 : ((sv.update p (fun pl => { pl with mtx := true })).update p
      (fun pl => { pl with pos := ⟨x, y⟩ })).sock_mtx_ = true := hs
  simp only [handle_message, trim_line_move, hd, h, if_neg hne, hpre, if_true, hm,
    Bool.false_eq_true, if_false, broadcast_except, hs2, Run.bind_relock]

/-- A `/say` handled while `sock_mtx_` is held: `broadcast` locks `sock_mtx_`
a second time. Nothing has been sent. -/
theorem handle_message_say_relock {F : Type} [Inhabited F] (lib : FloatLib F) (p : Ptr)
    (t : Bytes) (sv : Server F) (hs : sv.sock_mtx_ = true) :
    handle_message lib p (ascii "/say " ++ t) sv = .relock sv := by
  have hne : ¬ (ascii "/say " ++ trim_line t = []) := by
    intro hc; cases hc
  have h1 : (ascii "/move ").isPrefixOf (ascii "/say " ++ trim_line t) = false := rfl
  have h2 : (ascii "/name ").isPrefixOf (ascii "/say " ++ trim_line t) = false := rfl
  have h3 : (ascii "/say ").isPrefixOf (ascii "/say " ++ trim_line t) = true := by simp
  simp only [handle_message, trim_line_say, if_neg hne, h1, h2, h3, if_true,
    Bool.false_eq_true, if_false, broadcast, hs]

/-- What `/move` would do if `handle_message` were entered with `sock_mtx_`
free: the sender's position is set, and one movement notice goes to every
registered socket except the sender's. -/
theorem handle_message_move_unlocked {F : Type} [Inhabited F] (lib : FloatLib F) (p : Ptr)
    (r : Bytes) (sv : Server F) (x y : F) (h : extract_two lib (trim_line r) = some (x, y))
    (hm : (sv.deref p).mtx = false) (hs : sv.sock_mtx_ = false) (hp : p < sv.objects.length) :
    handle_message lib p (ascii "/move " ++ r) sv =
      .done () { sv with
        objects := sv.objects.set p { sv.deref p with pos := ⟨x, y⟩ },
        wire := sv.wire ++ frames_to ((registered sv).filter (fun s => s ≠ (sv.deref p).sock))
          ((sv.deref p).name ++ ascii " moved to " ++ lib.to_string x ++ ascii "," ++
            lib.to_string y ++ ascii "\n") } := by
  have hd : List.drop 6 (ascii "/move " ++ trim_line r) = trim_line r := rfl
  have hne : ¬ (ascii "/move " ++ trim_line r = []) := by
    intro hc; cases hc
  have hpre : (ascii "/move ").isPrefixOf (ascii "/move " ++ trim_line r) = true := by
    simp
  have hs2 : ((sv.update p (fun pl => { pl with mtx := true })).update p
      (fun pl => { pl with pos := ⟨x, y⟩ })).sock_mtx_ = false := hs
  have hlen : p < (sv.update p (fun pl => { pl with mtx := true })).objects.length := by
    simp [Server.update, hp]
  have hderef : ((sv.update p (fun pl => { pl with mtx := true })).update p
      (fun pl => { pl with pos := ⟨x, y⟩ })).deref p =
        { sv.deref p with mtx := true, pos := ⟨x, y⟩ } := by
    rw [deref_update_same _ _ _ hlen, deref_update_same _ _ _ hp]
  simp only [handle_message, trim_line_move, hd, h, if_neg hne, hpre, if_true, hm,
    Bool.false_eq_true, if_false, broadcast_except_eq _ _ _ hs2, Run.bind_done, hderef]
  congr 1
  obtain ⟨a, b, c, d, e, f, objs, w, z⟩ := sv
  simp only [Server.update, Server.deref, getD_set_self, List.set_set, registered,
    List.length_set] at hp hm ⊢
  simp only [hp, if_true]

/-- What `/say` would do if `handle_message` were entered with `sock_mtx_`
free: one frame `name: text\n` goes to every registered socket, the sender's
included, and nothing else changes. -/
theorem handle_message_say_unlocked {F : Type} [Inhabited F] (lib : FloatLib F) (p : Ptr)
    (t : Bytes) (sv : Server F) (hs : sv.sock_mtx_ = false) :
    handle_message lib p (ascii "/say " ++ t) sv =
      .done () { sv with
        wire := sv.wire ++ frames_to (registered sv)
                  ((sv.deref p).name ++ ascii ": " ++ trim_line t ++ ascii "\n") } := by
  have hne : ¬ (ascii "/say " ++ trim_line t = []) := by
    intro hc; cases hc
  have h1 : (ascii "/move ").isPrefixOf (ascii "/say " ++ trim_line t) = false := rfl
  have h2 : (ascii "/name ").isPrefixOf (ascii "/say " ++ trim_line t) = false := rfl
  have h3 : (ascii "/say ").isPrefixOf (ascii "/say " ++ trim_line t) = true := by simp
  have hd : List.drop 5 (ascii "/say " ++ trim_line t) = trim_line t := rfl
  simp only [handle_message, trim_line_say, if_neg hne, h1, h2, h3, if_true,
    Bool.false_eq_true, if_false, broadcast_eq _ sv hs, hd]

/-- C5, the code at a failing input. Players 1 and 2 are connected on sockets
4 and 5; socket 4 delivers the frame of `/move 3.5 -2.0`. `do_network_io`
holds `sock_mtx_` while it calls `recv_and_process`, so `handle_message`
writes the position and then reaches `broadcast_except`, which locks
`sock_mtx_` again: no movement notice is sent to socket 5. -/
theorem move_relocks_sock_mtx :
    do_network_io fixed6_lib (one_frame_on_4 (ascii "/move 3.5 -2.0")) two_players =
      .relock { two_players with
        sock_mtx_ := true,
        objects := [⟨1, 4, ascii "Player1", ⟨⟨3500000⟩, ⟨-2000000⟩⟩, [], true⟩,
                    ⟨2, 5, ascii "Player2", ⟨⟨0⟩, ⟨0⟩⟩, [], false⟩] } := by
  decide

/-- C7, the code at a failing input. Players 1 and 2 are connected on sockets
4 and 5; socket 4 delivers the frame of `/say hi`. `do_network_io` holds
`sock_mtx_` while it calls `recv_and_process`, so `broadcast` locks `sock_mtx_`
again: nothing is sent to socket 4 or 5. -/
theorem say_relocks_sock_mtx :
    do_network_io fixed6_lib (one_frame_on_4 (ascii "/say hi")) two_players =
      .relock { two_players with sock_mtx_ := true } := by
  decide

/-! ## The maps -/

theorem keys_assign (m : PtrMap) (k : Int) (v : Ptr) (x : Int) :
    x ∈ (m.assign k v).map Prod.fst ↔ x = k ∨ x ∈ m.map Prod.fst := by
  induction m with
  | nil => simp [PtrMap.assign]
  | cons e rest ih =>
    obtain ⟨k', v'⟩ := e
    simp only [PtrMap.assign]
    split_ifs with h1 h2
    · simp
    · subst h2
      simp
    · simp only [List.map_cons, List.mem_cons, ih]
      tauto

theorem mem_assign (m : PtrMap) (k : Int) (v : Ptr) (e : Int × Ptr)
    (h : e ∈ m.assign k v) : e = (k, v) ∨ e ∈ m := by
  induction m with
  | nil => simpa [PtrMap.assign] using h
  | cons e' rest ih =>
    obtain ⟨k', v'⟩ := e'
    simp only [PtrMap.assign] at h
    split_ifs at h with h1 h2
    · simpa using h
    · rcases List.mem_cons.mp h with h | h
      · exact Or.inl h
      · exact Or.inr (List.mem_cons_of_mem _ h)
    · rcases List.mem_cons.mp h with h | h
      · exact Or.inr (h ▸ List.mem_cons_self _ _)
      · rcases ih h with h | h
        · exact Or.inl h
        · exact Or.inr (List.mem_cons_of_mem _ h)

theorem mem_assign_self (m : PtrMap) (k : Int) (v : Ptr) : (k, v) ∈ m.assign k v := by
  induction m with
  | nil => simp [PtrMap.assign]
  | cons e rest ih =>
    obtain ⟨k', v'⟩ := e
    simp only [PtrMap.assign]
    split_ifs with h1 h2
    · simp
    · simp
    · exact List.mem_cons_of_mem _ ih

theorem length_assign (m : PtrMap) (k : Int) (v : Ptr) (h : k ∉ m.map Prod.fst) :
    (m.assign k v).length = m.length + 1 := by
  induction m with
  | nil => simp [PtrMap.assign]
  | cons e rest ih =>
    obtain ⟨k', v'⟩ := e
    simp only [List.map_cons, List.mem_cons, not_or] at h
    simp only [PtrMap.assign]
    split_ifs with h1 h2
    · simp
    · exact absurd h2 h.1
    · simp [ih h.2]

/-- The assignment `m[k] = v` keeps the keys in ascending order. -/
theorem sorted_assign (m : PtrMap) (k : Int) (v : Ptr)
    (h : (m.map Prod.fst).Pairwise (· < ·)) :
    ((m.assign k v).map Prod.fst).Pairwise (· < ·) := by
  induction m with
  | nil => simp [PtrMap.assign]
  | cons e rest ih =>
    obtain ⟨k', v'⟩ := e
    simp only [List.map_cons, List.pairwise_cons] at h
    simp only [PtrMap.assign]
    split_ifs with h1 h2
    · simp only [List.map_cons, List.pairwise_cons, List.mem_cons]
      refine ⟨?_, h.1, h.2⟩
      rintro x (rfl | hx)
      · exact h1
      · exact lt_trans h1 (h.1 x hx)
    · subst h2
      simpa using h
    · simp only [List.map_cons, List.pairwise_cons]
      refine ⟨?_, ih h.2⟩
      intro x hx
      rcases (keys_assign rest k v x).mp hx with rfl | hx
      · omega
      · exact h.1 x hx

theorem mem_erase (m : PtrMap) (k : Int) (e : Int × Ptr) :
    e ∈ m.erase k ↔ e ∈ m ∧ e.1 ≠ k := by
  simp [PtrMap.erase]

theorem keys_erase (m : PtrMap) (k : Int) (x : Int) :
    x ∈ (m.erase k).map Prod.fst ↔ x ∈ m.map Prod.fst ∧ x ≠ k := by
  simp only [List.mem_map, mem_erase]
  constructor
  · rintro ⟨e, ⟨he, hne⟩, rfl⟩
    exact ⟨⟨e, he, rfl⟩, hne⟩
  · rintro ⟨⟨e, he, rfl⟩, hne⟩
    exact ⟨e, ⟨he, hne⟩, rfl⟩

/-- The call `m.erase(k)` keeps the keys in ascending order. -/
theorem sorted_erase (m : PtrMap) (k : Int) (h : (m.map Prod.fst).Pairwise (· < ·)) :
    ((m.erase k).map Prod.fst).Pairwise (· < ·) := by
  unfold PtrMap.erase
  exact h.sublist ((List.filter_sublist _).map _)

theorem mem_of_find (m : PtrMap) (k : Int) (p : Ptr) (h : m.find k = some p) : (k, p) ∈ m := by
  induction m with
  | nil => simp [PtrMap.find, List.lookup] at h
  | cons e rest ih =>
    obtain ⟨k', v'⟩ := e
    simp only [PtrMap.find, List.lookup] at h
    by_cases hk : k = k'
    · subst hk
      simp at h
      subst h
      exact List.mem_cons_self _ _
    · have : (k == k') = false := by simpa using hk
      rw [this] at h
      exact List.mem_cons_of_mem _ (ih h)

/-! ## Identifiers -/

/-- The counter takes `2^32` steps to come back to a value. -/
theorem wrap_int_inj (a b : Nat) (ha : a < 2 ^ 32) (hb : b < 2 ^ 32)
    (h : wrap_int (1 + (a : Int)) = wrap_int (1 + (b : Int))) : a = b := by
  unfold wrap_int at h
  omega

theorem wrap_int_succ (n : Nat) :
    wrap_int (wrap_int (1 + (n : Int)) + 1) = wrap_int (1 + ((n + 1 : Nat) : Int)) := by
  unfold wrap_int
  push_cast
  omega

/-- There are `2^32` values of type `int`. -/
theorem length_le_of_is_int (l : List Int) (hn : l.Nodup) (h : ∀ x ∈ l, is_int x) :
    l.length ≤ 2 ^ 32 := by
  have hsub : l.toFinset ⊆ Finset.Icc (-2 ^ 31 : Int) (2 ^ 31 - 1) := by
    intro x hx
    have := h x (List.mem_toFinset.mp hx)
    unfold is_int at this
    rw [Finset.mem_Icc]
    omega
  have hcard := Finset.card_le_card hsub
  rw [List.toFinset_card_of_nodup hn, Int.card_Icc] at hcard
  have : ((2 : Int) ^ 31 - 1 + 1 - -2 ^ 31).toNat = 2 ^ 32 := by decide
  omega

/-! ## Accepting and dropping -/

theorem getD_append_length {α : Type} (l : List α) (a d : α) :
    (l ++ [a]).getD l.length d = a := by
  simp [List.getD_eq_getElem?_getD]

theorem getD_append_lt {α : Type} (l : List α) (a d : α) (j : Nat) (h : j < l.length) :
    (l ++ [a]).getD j d = l.getD j d := by
  simp [List.getD_eq_getElem?_getD, List.getElem?_append_left h]

theorem accept_new_eq {F : Type} [Inhabited F] (lib : FloatLib F) (cs : Int) (sv : Server F)
    (hs : sv.sock_mtx_ = false) (hw : sv.world_.mtx_ = false) (hcs : cs ≠ INVALID_SOCKET) :
    accept_new lib cs sv = .done () (accepted_state lib cs sv) := by
  obtain ⟨nid, li, socks, sm, ⟨pl, wm⟩, rn, objs, w, cl⟩ := sv
  simp only at hs hw
  subst hs hw
  simp only [accept_new, if_neg hcs, Bool.false_eq_true, if_false, add_player, Server.deref,
    getD_append_length, Run.bind_done, send_packet, new_player, accepted_state]
  rw [broadcast_except_eq _ _ _ rfl]
  simp [registered]

theorem drop_connection_eq {F : Type} [Inhabited F] (s : Int) (p : Ptr) (sv : Server F)
    (hs : sv.sock_mtx_ = false) (hw : sv.world_.mtx_ = false)
    (hf : sv.sock_to_player_.find s = some p) :
    drop_connection s sv = .done () (dropped_state s p sv) := by
  obtain ⟨nid, li, socks, sm, ⟨pl, wm⟩, rn, objs, w, cl⟩ := sv
  simp only at hs hw hf
  subst hs hw
  simp only [drop_connection, hf, Bool.false_eq_true, if_false, remove_player, Run.bind_done,
    dropped_state, Server.deref]
  rw [broadcast_eq _ _ rfl]
  simp [registered, Server.deref]

theorem drop_connection_absent {F : Type} [Inhabited F] (s : Int) (sv : Server F)
    (hs : sv.sock_mtx_ = false) (hf : sv.sock_to_player_.find s = none) :
    drop_connection s sv = .done () sv := by
  simp [drop_connection, hs, hf]

theorem accepted_state_settled {F : Type} [Inhabited F] (lib : FloatLib F) (cs : Int)
    (sv : Server F) (h : Settled sv) : Settled (accepted_state lib cs sv) := by
  have hnew : (accepted_state lib cs sv).deref sv.objects.length =
      new_player lib sv.next_player_id_ cs := by
    simp [accepted_state, Server.deref, getD_append_length]
  have hold : ∀ j, j < sv.objects.length → (accepted_state lib cs sv).deref j = sv.deref j := by
    intro j hj
    simp only [accepted_state, Server.deref]
    exact getD_append_lt _ _ _ _ hj
  have hlen : (accepted_state lib cs sv).objects.length = sv.objects.length + 1 := by
    simp [accepted_state]
  refine ⟨h.sock_free, h.world_free, ?_, ?_, ?_, ?_, ?_, ?_, ?_⟩
  · intro pl hpl
    rcases List.mem_append.mp hpl with hpl | hpl
    · exact h.players_free pl hpl
    · rw [List.mem_singleton.mp hpl]
      rfl
  · rw [hlen]
    show wrap_int (sv.next_player_id_ + 1) = _
    rw [h.next_id, wrap_int_succ]
  · intro j hj
    rw [hlen] at hj
    rcases Nat.lt_succ_iff_lt_or_eq.mp hj with hj | rfl
    · rw [hold j hj]
      exact h.object_id j hj
    · rw [hnew]
      exact h.next_id
  · intro e he
    rw [hlen]
    rcases mem_assign _ _ _ _ he with rfl | he
    · exact ⟨Nat.lt_succ_self _, by rw [hnew]; rfl⟩
    · have := h.player_ptr e he
      exact ⟨Nat.lt_succ_of_lt this.1, by rw [hold _ this.1]; exact this.2⟩
  · intro e he
    rw [hlen]
    rcases mem_assign _ _ _ _ he with rfl | he
    · exact Nat.lt_succ_self _
    · exact Nat.lt_succ_of_lt (h.sock_ptr e he)
  · exact sorted_assign _ _ _ h.players_sorted
  · exact sorted_assign _ _ _ h.socks_sorted

theorem dropped_state_settled {F : Type} [Inhabited F] (s : Int) (p : Ptr) (sv : Server F)
    (h : Settled sv) : Settled (dropped_state s p sv) := by
  refine ⟨h.sock_free, h.world_free, h.players_free, h.next_id, h.object_id, ?_, ?_, ?_, ?_⟩
  · intro e he
    exact h.player_ptr e ((mem_erase _ _ _).mp he).1
  · intro e he
    exact h.sock_ptr e ((mem_erase _ _ _).mp he).1
  · exact sorted_erase _ _ h.players_sorted
  · exact sorted_erase _ _ h.socks_sorted

theorem init_settled {F : Type} [Inhabited F] (listener : Int) :
    Settled (Server.init F listener) := by
  refine ⟨rfl, rfl, ?_, ?_, ?_, ?_, ?_, ?_, ?_⟩
  · intro pl hpl
    simp [Server.init] at hpl
  · show (1 : Int) = wrap_int (1 + ((0 : Nat) : Int))
    decide
  · intro j hj
    simp [Server.init] at hj
  · intro e he
    simp [Server.init] at he
  · intro e he
    simp [Server.init] at he
  · simp [Server.init]
  · simp [Server.init]

/-- The identifiers handed out so far are `wrap_int (1 + j)` for the objects
`j` made so far. -/
theorem Settled.key_eq {F : Type} [Inhabited F] {sv : Server F} (h : Settled sv)
    (e : Int × Ptr) (he : e ∈ sv.world_.players_) :
    e.2 < sv.objects.length ∧ e.1 = wrap_int (1 + (e.2 : Int)) := by
  have := h.player_ptr e he
  exact ⟨this.1, by rw [← this.2]; exact h.object_id _ this.1⟩

/-- One connection event from a settled state: it returns, in a settled
state, with one more object exactly when a connection was accepted. -/
theorem step_settled {F : Type} [Inhabited F] (lib : FloatLib F) (e : Event) (sv : Server F)
    (h : Settled sv) :
    ∃ sv', step lib e sv = .done () sv' ∧ Settled sv' ∧
      sv'.objects.length = sv.objects.length + [e].countP Event.accepted := by
  cases e with
  | accept cs =>
    by_cases hcs : cs = INVALID_SOCKET
    · refine ⟨sv, by simp [step, accept_new, hcs], h, ?_⟩
      simp [Event.accepted, hcs]
    · refine ⟨_, accept_new_eq lib cs sv h.sock_free h.world_free hcs,
        accepted_state_settled lib cs sv h, ?_⟩
      simp [accepted_state, Event.accepted, hcs]
  | drop s =>
    cases hf : sv.sock_to_player_.find s with
    | none =>
      exact ⟨sv, drop_connection_absent s sv h.sock_free hf, h, by simp [Event.accepted]⟩
    | some p =>
      exact ⟨_, drop_connection_eq s p sv h.sock_free h.world_free hf,
        dropped_state_settled s p sv h, by simp [dropped_state, Event.accepted]⟩

theorem run_append {F : Type} [Inhabited F] (lib : FloatLib F) (xs ys : List Event) :
    ∀ sv : Server F, run lib (xs ++ ys) sv = (run lib xs sv).bind fun _ sv1 => run lib ys sv1 := by
  induction xs with
  | nil => intro sv; rfl
  | cons e es ih =>
    intro sv
    simp only [List.cons_append, run]
    cases step lib e sv with
    | done a s1 => simp [ih]
    | relock s1 => rfl
    | out_of_fuel => rfl

/-- A run of connection events from a settled state returns in a settled
state, with one object per accepted connection. -/
theorem run_settled {F : Type} [Inhabited F] (lib : FloatLib F) (evs : List Event) :
    ∀ sv : Server F, Settled sv →
      ∃ sv', run lib evs sv = .done () sv' ∧ Settled sv' ∧
        sv'.objects.length = sv.objects.length + accepts evs := by
  induction evs with
  | nil => intro sv h; exact ⟨sv, rfl, h, by simp [accepts]⟩
  | cons e es ih =>
    intro sv h
    obtain ⟨s1, h1, hs1, hl1⟩ := step_settled lib e sv h
    obtain ⟨s2, h2, hs2, hl2⟩ := ih s1 hs1
    refine ⟨s2, by simp [run, h1, h2], hs2, ?_⟩
    rw [hl2, hl1]
    simp only [accepts, List.countP_cons, List.countP_nil]
    omega

/-- A fresh identifier: in a settled state with fewer than `2^32` objects the
counter's value is not a key of `players_`. -/
theorem Settled.next_id_fresh {F : Type} [Inhabited F] {sv : Server F} (h : Settled sv)
    (hlt : sv.objects.length < 2 ^ 32) :
    sv.next_player_id_ ∉ sv.world_.players_.map Prod.fst := by
  intro hmem
  obtain ⟨e, he, hk⟩ := List.mem_map.mp hmem
  obtain ⟨hlt2, hkey⟩ := h.key_eq e he
  rw [h.next_id, hkey] at hk
  have hb : e.2 < 2 ^ 32 := lt_trans hlt2 hlt
  have := wrap_int_inj sv.objects.length e.2 hlt hb hk.symm
  exact absurd this (Nat.ne_of_gt hlt2)

/-- Accepting connections on sockets not yet registered: each one adds an
entry to `sock_to_player_` and one to `players_`. -/
theorem accepts_grow {F : Type} [Inhabited F] (lib : FloatLib F) (socks : List Int) :
    ∀ sv : Server F, Settled sv → socks.Nodup →
      (∀ s ∈ socks, s ≠ INVALID_SOCKET ∧ s ∉ sv.sock_to_player_.map Prod.fst) →
      sv.objects.length + socks.length ≤ 2 ^ 32 →
      ∃ sv', run lib (socks.map Event.accept) sv = .done () sv' ∧ Settled sv' ∧
        sv'.sock_to_player_.length = sv.sock_to_player_.length + socks.length ∧
        sv'.world_.players_.length = sv.world_.players_.length + socks.length := by
  induction socks with
  | nil => intro sv h _ _ _; exact ⟨sv, rfl, h, rfl, rfl⟩
  | cons cs rest ih =>
    intro sv h hnd hfresh hbound
    obtain ⟨hcs, hnew⟩ := hfresh cs (List.mem_cons_self _ _)
    have hnd' := List.nodup_cons.mp hnd
    simp only [List.length_cons] at hbound
    have hstep := accept_new_eq lib cs sv h.sock_free h.world_free hcs
    have hset := accepted_state_settled lib cs sv h
    have hfresh' : ∀ s ∈ rest, s ≠ INVALID_SOCKET ∧
        s ∉ (accepted_state lib cs sv).sock_to_player_.map Prod.fst := by
      intro s hs
      refine ⟨(hfresh s (List.mem_cons_of_mem _ hs)).1, ?_⟩
      intro hmem
      rcases (keys_assign _ _ _ _).mp hmem with rfl | hold
      · exact hnd'.1 hs
      · exact (hfresh s (List.mem_cons_of_mem _ hs)).2 hold
    have hlen : (accepted_state lib cs sv).objects.length = sv.objects.length + 1 := by
      simp [accepted_state]
    obtain ⟨sv', hrun, hset', hl1, hl2⟩ := ih (accepted_state lib cs sv) hset hnd'.2 hfresh'
      (by rw [hlen]; omega)
    refine ⟨sv', by simp [run, step, hstep, hrun], hset', ?_, ?_⟩
    · rw [hl1]
      show (sv.sock_to_player_.assign cs sv.objects.length).length + rest.length = _
      rw [length_assign _ _ _ hnew, List.length_cons]
      omega
    · rw [hl2]
      show (sv.world_.players_.assign sv.next_player_id_ sv.objects.length).length +
        rest.length = _
      rw [length_assign _ _ _ (h.next_id_fresh (by omega)), List.length_cons]
      omega

theorem world_ids_eq_keys {F : Type} [Inhabited F] (sv : Server F) (h : Settled sv) :
    (world_players sv).map (fun pl => pl.id) = sv.world_.players_.map Prod.fst := by
  simp only [world_players, List.map_map]
  exact List.map_congr_left (fun e he => (h.player_ptr e he).2)

/-- C9. After `N` `accept_new` calls that each got a connection handle not
returned before, with no `drop_connection`, `sock_to_player_` and `World` hold
exactly `N` entries each, and the `N` players have pairwise distinct ids. -/
theorem accepts_fill_registry {F : Type} [Inhabited F] (lib : FloatLib F) (listener : Int)
    (socks : List Int) (hnd : socks.Nodup)
    (hval : ∀ s ∈ socks, is_int s ∧ s ≠ INVALID_SOCKET) :
    ∃ sv, run lib (socks.map Event.accept) (Server.init F listener) = .done () sv ∧
      sv.sock_to_player_.length = socks.length ∧
      sv.world_.players_.length = socks.length ∧
      (world_players sv).length = socks.length ∧
      ((world_players sv).map (fun pl => pl.id)).Nodup := by
  have hbound : socks.length ≤ 2 ^ 32 :=
    length_le_of_is_int socks hnd (fun s hs => (hval s hs).1)
  obtain ⟨sv, hrun, hset, hl1, hl2⟩ := accepts_grow lib socks (Server.init F listener)
    (init_settled listener) hnd
    (fun s hs => ⟨(hval s hs).2, by simp [Server.init]⟩)
    (by simpa [Server.init] using hbound)
  refine ⟨sv, hrun, by simpa [Server.init] using hl1, by simpa [Server.init] using hl2, ?_, ?_⟩
  · simpa [world_players, Server.init] using hl2
  · rw [world_ids_eq_keys sv hset]
    exact hset.players_sorted.imp (fun hab => ne_of_lt hab)

theorem accepts_fill_registry_witness :
    ([4, 5, 7] : List Int).Nodup ∧ (∀ s ∈ ([4, 5, 7] : List Int), is_int s ∧ s ≠ INVALID_SOCKET) ∧
    ∃ sv, run fixed6_lib (([4, 5, 7] : List Int).map Event.accept) (Server.init Fixed6 3) =
        .done () sv ∧
      sv.sock_to_player_.length = ([4, 5, 7] : List Int).length ∧
      sv.world_.players_.length = ([4, 5, 7] : List Int).length ∧
      (world_players sv).length = ([4, 5, 7] : List Int).length ∧
      ((world_players sv).map (fun pl => pl.id)).Nodup :=
  ⟨by decide, by decide,
   accepts_fill_registry fixed6_lib 3 [4, 5, 7] (by decide) (by decide)⟩

/-! ## Identifiers of dropped players -/

/-- One event keeps an old identifier out of `players_`, as long as the
counter has not gone round. -/
theorem step_keeps_out {F : Type} [Inhabited F] (lib : FloatLib F) (e : Event) (sv : Server F)
    (h : Settled sv) (p : Nat) (hp : p < sv.objects.length)
    (hout : wrap_int (1 + (p : Int)) ∉ sv.world_.players_.map Prod.fst)
    (hbound : sv.objects.length + [e].countP Event.accepted ≤ 2 ^ 32) :
    ∃ sv', step lib e sv = .done () sv' ∧ Settled sv' ∧
      sv'.objects.length = sv.objects.length + [e].countP Event.accepted ∧
      wrap_int (1 + (p : Int)) ∉ sv'.world_.players_.map Prod.fst := by
  cases e with
  | accept cs =>
    by_cases hcs : cs = INVALID_SOCKET
    · exact ⟨sv, by simp [step, accept_new, hcs], h, by simp [Event.accepted, hcs], hout⟩
    · have hacc : [Event.accept cs].countP Event.accepted = 1 := by
        simp [Event.accepted, hcs]
      rw [hacc] at hbound
      refine ⟨_, accept_new_eq lib cs sv h.sock_free h.world_free hcs,
        accepted_state_settled lib cs sv h, by simp [accepted_state, hacc], ?_⟩
      intro hmem
      rcases (keys_assign _ _ _ _).mp hmem with hk | hold
      · rw [h.next_id] at hk
        have hlt : sv.objects.length < 2 ^ 32 := by omega
        have := wrap_int_inj p sv.objects.length (lt_trans hp hlt) hlt hk
        exact absurd this (Nat.ne_of_lt hp)
      · exact hout hold
  | drop s =>
    cases hf : sv.sock_to_player_.find s with
    | none =>
      exact ⟨sv, drop_connection_absent s sv h.sock_free hf, h, by simp [Event.accepted], hout⟩
    | some q =>
      refine ⟨_, drop_connection_eq s q sv h.sock_free h.world_free hf,
        dropped_state_settled s q sv h, by simp [dropped_state, Event.accepted], ?_⟩
      intro hmem
      exact hout ((keys_erase _ _ _).mp hmem).1

/-- A run keeps an old identifier out of `players_`, as long as the counter
has not gone round. -/
theorem run_keeps_out {F : Type} [Inhabited F] (lib : FloatLib F) (evs : List Event) :
    ∀ (sv : Server F), Settled sv → ∀ (p : Nat), p < sv.objects.length →
      wrap_int (1 + (p : Int)) ∉ sv.world_.players_.map Prod.fst →
      sv.objects.length + accepts evs ≤ 2 ^ 32 →
      ∃ sv', run lib evs sv = .done () sv' ∧ Settled sv' ∧
        wrap_int (1 + (p : Int)) ∉ sv'.world_.players_.map Prod.fst := by
  induction evs with
  | nil => intro sv h p _ hout _; exact ⟨sv, rfl, h, hout⟩
  | cons e es ih =>
    intro sv h p hp hout hbound
    have hsplit : accepts (e :: es) = [e].countP Event.accepted + accepts es := by
      simp only [accepts, List.countP_cons, List.countP_nil]
      omega
    rw [hsplit] at hbound
    obtain ⟨s1, h1, hs1, hl1, ho1⟩ := step_keeps_out lib e sv h p hp hout (by omega)
    obtain ⟨s2, h2, hs2, ho2⟩ := ih s1 hs1 p (by omega) ho1 (by omega)
    exact ⟨s2, by simp [run, h1, h2], hs2, ho2⟩

theorem accepts_append (xs ys : List Event) : accepts (xs ++ ys) = accepts xs + accepts ys := by
  simp [accepts]

/-- C10, as amended. In every run of accepts and drops that accepts at most
`2^32` connections: once `drop_connection(s)` has removed the connection `s`
of a player, no later `World::snapshot_players` returns a player with that
player's id. -/
theorem dropped_id_never_returns {F : Type} [Inhabited F] (lib : FloatLib F) (listener : Int)
    (pre post : List Event) (s : Int)
    (hcount : accepts (pre ++ Event.drop s :: post) ≤ 2 ^ 32) :
    ∃ sv1 sv2, run lib pre (Server.init F listener) = .done () sv1 ∧
      run lib (pre ++ Event.drop s :: post) (Server.init F listener) = .done () sv2 ∧
      ∀ p, sv1.sock_to_player_.find s = some p →
        ∃ ptrs, snapshot_players sv2 = .done ptrs sv2 ∧
          (sv1.deref p).id ∉ ptrs.map (fun q => (sv2.deref q).id) := by
  obtain ⟨sv1, hrun1, hset1, hlen1⟩ := run_settled lib pre (Server.init F listener)
    (init_settled listener)
  obtain ⟨sv2, hrun2, hset2, -⟩ := run_settled lib (pre ++ Event.drop s :: post)
    (Server.init F listener) (init_settled listener)
  refine ⟨sv1, sv2, hrun1, hrun2, ?_⟩
  intro p hf
  have hmem := mem_of_find _ _ _ hf
  have hp : p < sv1.objects.length := hset1.sock_ptr _ hmem
  have hid : (sv1.deref p).id = wrap_int (1 + (p : Int)) := hset1.object_id p hp
  have hdrop := drop_connection_eq s p sv1 hset1.sock_free hset1.world_free hf
  have hout : wrap_int (1 + (p : Int)) ∉ (dropped_state s p sv1).world_.players_.map Prod.fst := by
    intro hm
    exact ((keys_erase _ _ _).mp hm).2 hid.symm
  have hacc : accepts (pre ++ Event.drop s :: post) = accepts pre + accepts post := by
    simp [accepts, Event.accepted]
  have hlen0 : (Server.init F listener).objects.length = 0 := rfl
  obtain ⟨sv3, hrun3, -, hout3⟩ := run_keeps_out lib post (dropped_state s p sv1)
    (dropped_state_settled s p sv1 hset1) p hp hout (by
      show sv1.objects.length + accepts post ≤ 2 ^ 32
      omega)
  have hsame : sv2 = sv3 := by
    have : run lib (pre ++ Event.drop s :: post) (Server.init F listener) = .done () sv3 := by
      rw [run_append, hrun1]
      simp [run, step, hdrop, hrun3]
    rw [hrun2] at this
    cases this
    rfl
  subst hsame
  refine ⟨sv2.world_.players_.map Prod.snd, by simp [snapshot_players, hset2.world_free], ?_⟩
  have hids : (sv2.world_.players_.map Prod.snd).map (fun q => (sv2.deref q).id) =
      sv2.world_.players_.map Prod.fst := by
    rw [List.map_map]
    exact List.map_congr_left (fun e he => (hset2.player_ptr e he).2)
  rw [hids, hid]
  exact hout3

theorem dropped_id_never_returns_witness :
    accepts ([Event.accept 4, Event.accept 5] ++ Event.drop 4 :: [Event.accept 4]) ≤ 2 ^ 32 ∧
    ∃ sv1 sv2, run fixed6_lib [Event.accept 4, Event.accept 5] (Server.init Fixed6 3) =
        .done () sv1 ∧
      run fixed6_lib ([Event.accept 4, Event.accept 5] ++ Event.drop 4 :: [Event.accept 4])
        (Server.init Fixed6 3) = .done () sv2 ∧
      ∀ p, sv1.sock_to_player_.find 4 = some p →
        ∃ ptrs, snapshot_players sv2 = .done ptrs sv2 ∧
          (sv1.deref p).id ∉ ptrs.map (fun q => (sv2.deref q).id) :=
  ⟨by decide, dropped_id_never_returns fixed6_lib 3 _ _ 4 (by decide)⟩

/-! ## The counter goes round -/

theorem accepts_reconnects (n : Nat) : accepts (reconnects n) = n := by
  induction n with
  | zero => rfl
  | succ n ih =>
    have : reconnects (n + 1) = [Event.accept 4, Event.drop 4] ++ reconnects n := by
      simp [reconnects, List.replicate_succ]
    rw [this, accepts_append, ih]
    have : accepts [Event.accept 4, Event.drop 4] = 1 := by decide
    omega

theorem reconnects_succ (n : Nat) :
    reconnects (n + 1) = Event.accept 4 :: Event.drop 4 :: reconnects n := by
  simp [reconnects, List.replicate_succ]

/-- One client connects and is dropped while nobody else is there: the server
is idle again, with one more object made. -/
theorem reconnect_idle {F : Type} [Inhabited F] (lib : FloatLib F) (sv : Server F)
    (h : Idle sv) :
    ∃ sv', run lib [Event.accept 4, Event.drop 4] sv = .done () sv' ∧ Idle sv' ∧
      sv'.objects.length = sv.objects.length + 1 := by
  have hacc := accept_new_eq lib 4 sv h.sock_free h.world_free (by decide)
  have hfind : (accepted_state lib 4 sv).sock_to_player_.find 4 = some sv.objects.length := by
    simp [accepted_state, h.no_socks, PtrMap.assign, PtrMap.find, List.lookup]
  have hdrop := drop_connection_eq 4 sv.objects.length (accepted_state lib 4 sv)
    h.sock_free h.world_free hfind
  have hid : ((accepted_state lib 4 sv).deref sv.objects.length).id = sv.next_player_id_ := by
    simp [accepted_state, Server.deref, getD_append_length, new_player]
  refine ⟨dropped_state 4 sv.objects.length (accepted_state lib 4 sv),
    by simp [run, step, hacc, hdrop], ⟨h.sock_free, h.world_free, ?_, ?_, ?_⟩, ?_⟩
  · simp [dropped_state, accepted_state, h.no_socks, PtrMap.assign, PtrMap.erase]
  · show ((accepted_state lib 4 sv).world_.players_.erase
      ((accepted_state lib 4 sv).deref sv.objects.length).id) = []
    rw [hid]
    simp [accepted_state, h.no_players, PtrMap.assign, PtrMap.erase]
  · have hn : (dropped_state 4 sv.objects.length (accepted_state lib 4 sv)).next_player_id_ =
        wrap_int (sv.next_player_id_ + 1) := rfl
    have hl : (dropped_state 4 sv.objects.length (accepted_state lib 4 sv)).objects.length =
        sv.objects.length + 1 := by simp [dropped_state, accepted_state]
    rw [hn, hl, h.next_id, wrap_int_succ]
  · simp [dropped_state, accepted_state]

theorem reconnects_idle {F : Type} [Inhabited F] (lib : FloatLib F) (n : Nat) :
    ∀ sv : Server F, Idle sv →
      ∃ sv', run lib (reconnects n) sv = .done () sv' ∧ Idle sv' ∧
        sv'.objects.length = sv.objects.length + n := by
  induction n with
  | zero => intro sv h; exact ⟨sv, rfl, h, rfl⟩
  | succ n ih =>
    intro sv h
    obtain ⟨s1, h1, hi1, hl1⟩ := reconnect_idle lib sv h
    obtain ⟨s2, h2, hi2, hl2⟩ := ih s1 hi1
    refine ⟨s2, ?_, hi2, by omega⟩
    have : reconnects (n + 1) = [Event.accept 4, Event.drop 4] ++ reconnects n :=
      reconnects_succ n
    rw [this, run_append, h1]
    exact h2

theorem init_idle {F : Type} (listener : Int) : Idle (Server.init F listener) :=
  ⟨rfl, rfl, rfl, rfl, by show (1 : Int) = wrap_int (1 + ((0 : Nat) : Int)); decide⟩

/-- C10, counterexample. A client connects on socket 4 and gets id 1; it is
dropped. Clients then connect and are dropped `2^32 - 1` more times, and one
more client connects, the `2^32 + 1`-st: the counter has gone round, the new
player has id 1, and `snapshot_players` returns it. -/
theorem id_reused_after_wrap :
    accepts ([Event.accept 4] ++ Event.drop 4 ::
      (reconnects (2 ^ 32 - 1) ++ [Event.accept 4])) = 2 ^ 32 + 1 ∧
    ∃ sv1 sv2, run fixed6_lib [Event.accept 4] (Server.init Fixed6 3) = .done () sv1 ∧
      sv1.sock_to_player_.find 4 = some 0 ∧ (sv1.deref 0).id = 1 ∧
      run fixed6_lib ([Event.accept 4] ++ Event.drop 4 ::
        (reconnects (2 ^ 32 - 1) ++ [Event.accept 4])) (Server.init Fixed6 3) = .done () sv2 ∧
      ∃ ptrs, snapshot_players sv2 = .done ptrs sv2 ∧
        (sv1.deref 0).id ∈ ptrs.map (fun q => (sv2.deref q).id) := by
  obtain ⟨sv', hrun, hidle, hlen⟩ := reconnects_idle fixed6_lib (2 ^ 32 - 1 + 1)
    (Server.init Fixed6 3) (init_idle 3)
  have hlen' : sv'.objects.length = 2 ^ 32 := by
    rw [hlen]; rfl
  have hnext : sv'.next_player_id_ = 1 := by
    rw [hidle.next_id, hlen']
    decide
  have hacc := accept_new_eq fixed6_lib 4 sv' hidle.sock_free hidle.world_free (by decide)
  have hevs : [Event.accept 4] ++ Event.drop 4 :: (reconnects (2 ^ 32 - 1) ++ [Event.accept 4]) =
      reconnects (2 ^ 32 - 1 + 1) ++ [Event.accept 4] := by
    rw [reconnects_succ]
    rfl
  refine ⟨?_, accepted_state fixed6_lib 4 (Server.init Fixed6 3),
    accepted_state fixed6_lib 4 sv', by decide, by decide, by decide, ?_, ?_⟩
  · rw [hevs, accepts_append, accepts_reconnects]
    rfl
  · rw [hevs, run_append, hrun]
    simp [run, step, hacc]
  · refine ⟨[sv'.objects.length], ?_, ?_⟩
    · simp [snapshot_players, accepted_state, hidle.world_free, hidle.no_players,
        PtrMap.assign]
    · have h1 : ((accepted_state fixed6_lib 4 (Server.init Fixed6 3)).deref 0).id = 1 := by
        decide
      have h2 : ((accepted_state fixed6_lib 4 sv').deref sv'.objects.length).id = 1 := by
        simp [accepted_state, Server.deref, getD_append_length, new_player, hnext]
      simp [h1, h2]

/-! ## Tick after connection events -/

theorem deref_mem {F : Type} [Inhabited F] (sv : Server F) (p : Ptr)
    (h : p < sv.objects.length) : sv.deref p ∈ sv.objects := by
  simp only [Server.deref, List.getD_eq_getElem?_getD, List.getElem?_eq_getElem h,
    Option.getD_some]
  exact List.getElem_mem h

/-- After any run of accepts and drops from the initial state, `tick` finds
no lock held, `players_` in ascending key order, and every player under its
own id. -/
theorem tick_ready_after_run {F : Type} [Inhabited F] (lib : FloatLib F) (listener : Int)
    (evs : List Event) :
    ∃ sv, run lib evs (Server.init F listener) = .done () sv ∧
      sv.sock_mtx_ = false ∧ sv.world_.mtx_ = false ∧
      (∀ pl ∈ world_players sv, pl.mtx = false) ∧
      (sv.world_.players_.map Prod.fst).Pairwise (· < ·) ∧
      (∀ e ∈ sv.world_.players_, (sv.deref e.2).id = e.1) := by
  obtain ⟨sv, hrun, hset, -⟩ := run_settled lib evs (Server.init F listener)
    (init_settled listener)
  refine ⟨sv, hrun, hset.sock_free, hset.world_free, ?_, hset.players_sorted,
    fun e he => (hset.player_ptr e he).2⟩
  intro pl hpl
  obtain ⟨e, he, rfl⟩ := List.mem_map.mp hpl
  exact hset.players_free _ (deref_mem sv e.2 (hset.player_ptr e he).1)

/-! ## Registry and world -/

theorem mem_assign_of_mem (m : PtrMap) (k : Int) (v : Ptr) (e : Int × Ptr) (he : e ∈ m)
    (hk : e.1 ≠ k) : e ∈ m.assign k v := by
  induction m with
  | nil => cases he
  | cons e' rest ih =>
    obtain ⟨k', v'⟩ := e'
    simp only [PtrMap.assign]
    split_ifs with h1 h2
    · exact List.mem_cons_of_mem _ he
    · rcases List.mem_cons.mp he with rfl | he
      · exact absurd h2.symm hk
      · exact List.mem_cons_of_mem _ he
    · rcases List.mem_cons.mp he with rfl | he
      · exact List.mem_cons_self _ _
      · exact List.mem_cons_of_mem _ (ih he)

/-- A map holds one value per key. -/
theorem unique_of_sorted (m : PtrMap) (h : (m.map Prod.fst).Pairwise (· < ·)) (k : Int)
    (a b : Ptr) (ha : (k, a) ∈ m) (hb : (k, b) ∈ m) : a = b := by
  induction m with
  | nil => cases ha
  | cons e rest ih =>
    simp only [List.map_cons, List.pairwise_cons] at h
    rcases List.mem_cons.mp ha with ha | ha <;> rcases List.mem_cons.mp hb with hb | hb
    · rw [← hb] at ha
      exact (Prod.mk.inj ha).2
    · have := h.1 k (List.mem_map.mpr ⟨(k, b), hb, rfl⟩)
      rw [← ha] at this
      exact absurd this (lt_irrefl _)
    · have := h.1 k (List.mem_map.mpr ⟨(k, a), ha, rfl⟩)
      rw [← hb] at this
      exact absurd this (lt_irrefl _)
    · exact ih h.2 ha hb

theorem ptrs_assign (m : PtrMap) (k : Int) (v : Ptr) (hk : k ∉ m.map Prod.fst) (p : Ptr) :
    p ∈ (m.assign k v).map Prod.snd ↔ p = v ∨ p ∈ m.map Prod.snd := by
  constructor
  · intro hp
    obtain ⟨e, he, rfl⟩ := List.mem_map.mp hp
    rcases mem_assign _ _ _ _ he with rfl | he
    · exact Or.inl rfl
    · exact Or.inr (List.mem_map.mpr ⟨e, he, rfl⟩)
  · rintro (rfl | hp)
    · exact List.mem_map.mpr ⟨(k, p), mem_assign_self _ _ _, rfl⟩
    · obtain ⟨e, he, rfl⟩ := List.mem_map.mp hp
      refine List.mem_map.mpr ⟨e, mem_assign_of_mem _ _ _ _ he ?_, rfl⟩
      intro hek
      exact hk (List.mem_map.mpr ⟨e, he, hek⟩)

/-- The operation `accept_new` keeps registry and world matched, when the
handle is not registered yet and the counter has not gone round. -/
theorem accept_keeps_linked {F : Type} [Inhabited F] (lib : FloatLib F) (cs : Int)
    (sv : Server F) (h : Linked sv) (hcs : cs ≠ INVALID_SOCKET)
    (hfresh : cs ∉ sv.sock_to_player_.map Prod.fst) (hlt : sv.objects.length < 2 ^ 32) :
    accept_new lib cs sv = .done () (accepted_state lib cs sv) ∧
      Linked (accepted_state lib cs sv) := by
  refine ⟨accept_new_eq lib cs sv h.settled.sock_free h.settled.world_free hcs,
    accepted_state_settled lib cs sv h.settled, ?_, ?_⟩
  · intro e he
    rcases mem_assign _ _ _ _ he with rfl | he
    · simp [accepted_state, Server.deref, getD_append_length, new_player]
    · have hp := h.settled.sock_ptr e he
      have : (accepted_state lib cs sv).deref e.2 = sv.deref e.2 := by
        simp only [accepted_state, Server.deref]
        exact getD_append_lt _ _ _ _ hp
      rw [this]
      exact h.sock_key e he
  · intro p
    show p ∈ (sv.world_.players_.assign sv.next_player_id_ sv.objects.length).map Prod.snd ↔
      p ∈ (sv.sock_to_player_.assign cs sv.objects.length).map Prod.snd
    rw [ptrs_assign _ _ _ (h.settled.next_id_fresh hlt), ptrs_assign _ _ _ hfresh,
      h.same_players p]

/-- The operation `drop_connection` keeps registry and world matched, as long
as the counter has not gone round. -/
theorem drop_keeps_linked {F : Type} [Inhabited F] (s : Int) (p : Ptr) (sv : Server F)
    (h : Linked sv) (hle : sv.objects.length ≤ 2 ^ 32)
    (hf : sv.sock_to_player_.find s = some p) :
    drop_connection s sv = .done () (dropped_state s p sv) ∧ Linked (dropped_state s p sv) := by
  have hsp := mem_of_find _ _ _ hf
  have hp : p < sv.objects.length := h.settled.sock_ptr _ hsp
  refine ⟨drop_connection_eq s p sv h.settled.sock_free h.settled.world_free hf,
    dropped_state_settled s p sv h.settled, ?_, ?_⟩
  · intro e he
    exact h.sock_key e ((mem_erase _ _ _).mp he).1
  · intro q
    show q ∈ (sv.world_.players_.erase (sv.deref p).id).map Prod.snd ↔
      q ∈ (sv.sock_to_player_.erase s).map Prod.snd
    constructor
    · intro hq
      obtain ⟨e, he, rfl⟩ := List.mem_map.mp hq
      obtain ⟨he, hne⟩ := (mem_erase _ _ _).mp he
      have hqp : e.2 ≠ p := by
        intro heq
        apply hne
        rw [← (h.settled.player_ptr e he).2, heq]
      obtain ⟨e', he', hsnd⟩ := List.mem_map.mp
        ((h.same_players e.2).mp (List.mem_map.mpr ⟨e, he, rfl⟩))
      refine List.mem_map.mpr ⟨e', (mem_erase _ _ _).mpr ⟨he', ?_⟩, hsnd⟩
      intro hs
      apply hqp
      rw [← hsnd]
      have : (s, e'.2) ∈ sv.sock_to_player_ := by
        rw [← hs]
        exact he'
      exact unique_of_sorted _ h.settled.socks_sorted s _ _ this hsp
    · intro hq
      obtain ⟨e, he, rfl⟩ := List.mem_map.mp hq
      obtain ⟨he, hne⟩ := (mem_erase _ _ _).mp he
      have hqp : e.2 ≠ p := by
        intro heq
        apply hne
        rw [← h.sock_key e he, heq]
        exact h.sock_key _ hsp
      obtain ⟨e', he', hsnd⟩ := List.mem_map.mp
        ((h.same_players e.2).mpr (List.mem_map.mpr ⟨e, he, rfl⟩))
      refine List.mem_map.mpr ⟨e', (mem_erase _ _ _).mpr ⟨he', ?_⟩, hsnd⟩
      intro hk
      apply hqp
      obtain ⟨hlt', hkey'⟩ := h.settled.key_eq e' he'
      have hidp := h.settled.object_id p hp
      rw [hkey', hidp] at hk
      rw [← hsnd]
      exact wrap_int_inj e'.2 p (lt_of_lt_of_le hlt' hle) (lt_of_lt_of_le hp hle) hk

theorem broadcast_except_maps {F : Type} [Inhabited F] (ex : Int) (msg : Bytes)
    (sv sv' : Server F) (h : broadcast_except ex msg sv = .done () sv') :
    sv'.sock_to_player_ = sv.sock_to_player_ ∧ sv'.world_ = sv.world_ := by
  cases hs : sv.sock_mtx_
  · rw [broadcast_except_eq ex msg sv hs] at h
    cases h
    exact ⟨rfl, rfl⟩
  · simp [broadcast_except, hs] at h

theorem broadcast_maps {F : Type} [Inhabited F] (msg : Bytes)
    (sv sv' : Server F) (h : broadcast msg sv = .done () sv') :
    sv'.sock_to_player_ = sv.sock_to_player_ ∧ sv'.world_ = sv.world_ := by
  cases hs : sv.sock_mtx_
  · rw [broadcast_eq msg sv hs] at h
    cases h
    exact ⟨rfl, rfl⟩
  · simp [broadcast, hs] at h

/-- The method `handle_message` writes neither `sock_to_player_` nor `world_`. -/
theorem handle_message_keeps_maps {F : Type} [Inhabited F] (lib : FloatLib F) (p : Ptr)
    (msg : Bytes) (sv sv' : Server F) (h : handle_message lib p msg sv = .done () sv') :
    sv'.sock_to_player_ = sv.sock_to_player_ ∧ sv'.world_ = sv.world_ := by
  unfold handle_message at h
  dsimp only at h
  by_cases h1 : trim_line msg = []
  · rw [if_pos h1] at h
    cases h
    exact ⟨rfl, rfl⟩
  rw [if_neg h1] at h
  by_cases h2 : (ascii "/move ").isPrefixOf (trim_line msg) = true
  · rw [if_pos h2] at h
    cases hx : extract_two lib (List.drop 6 (trim_line msg)) with
    | none =>
      rw [hx] at h
      cases h
      exact ⟨rfl, rfl⟩
    | some xy =>
      obtain ⟨x, y⟩ := xy
      rw [hx] at h
      dsimp only at h
      by_cases hm : (sv.deref p).mtx = true
      · rw [if_pos hm] at h
        cases h
      · rw [if_neg hm] at h
        generalize hb : broadcast_except _ _ _ = res at h
        cases res with
        | done u s3 =>
          cases h
          have hm3 := broadcast_except_maps _ _ _ _ hb
          exact ⟨hm3.1, hm3.2⟩
        | relock s3 => cases h
        | out_of_fuel => cases h
  rw [if_neg h2] at h
  by_cases h3 : (ascii "/name ").isPrefixOf (trim_line msg) = true
  · rw [if_pos h3] at h
    by_cases h4 : List.drop 6 (trim_line msg) ≠ []
    · rw [if_pos h4] at h
      have hm3 := broadcast_except_maps _ _ _ _ h
      exact ⟨hm3.1, hm3.2⟩
    · rw [if_neg h4] at h
      cases h
      exact ⟨rfl, rfl⟩
  rw [if_neg h3] at h
  by_cases h5 : (ascii "/say ").isPrefixOf (trim_line msg) = true
  · rw [if_pos h5] at h
    exact broadcast_maps _ _ _ h
  · rw [if_neg h5] at h
    cases h
    exact ⟨rfl, rfl⟩

theorem init_linked {F : Type} [Inhabited F] (listener : Int) :
    Linked (Server.init F listener) := by
  refine ⟨init_settled listener, ?_, ?_⟩
  · intro e he
    simp [Server.init] at he
  · intro p
    simp [Server.init]

/-- In a run of accepts and drops from a linked state, with fresh handles and
the counter not gone round, the server ends in a linked state: a player is in
`World` exactly when its connection is registered. -/
theorem run_linked {F : Type} [Inhabited F] (lib : FloatLib F) (evs : List Event) :
    ∀ sv : Server F, Linked sv → fresh_handles lib evs sv →
      sv.objects.length + accepts evs ≤ 2 ^ 32 →
      ∃ sv', run lib evs sv = .done () sv' ∧ Linked sv' := by
  induction evs with
  | nil => intro sv h _ _; exact ⟨sv, rfl, h⟩
  | cons e es ih =>
    intro sv h hfresh hbound
    have hsplit : accepts (e :: es) = [e].countP Event.accepted + accepts es := by
      simp only [accepts, List.countP_cons, List.countP_nil]
      omega
    rw [hsplit] at hbound
    obtain ⟨hnow, hlater⟩ := hfresh
    have hstep : ∃ s1, step lib e sv = .done () s1 ∧ Linked s1 ∧
        s1.objects.length = sv.objects.length + [e].countP Event.accepted := by
      cases e with
      | accept cs =>
        by_cases hcs : cs = INVALID_SOCKET
        · exact ⟨sv, by simp [step, accept_new, hcs], h, by simp [Event.accepted, hcs]⟩
        · have hacc : [Event.accept cs].countP Event.accepted = 1 := by
            simp [Event.accepted, hcs]
          rw [hacc] at hbound
          obtain ⟨h1, h2⟩ := accept_keeps_linked lib cs sv h hcs hnow (by omega)
          exact ⟨_, h1, h2, by simp [accepted_state, hacc]⟩
      | drop s =>
        cases hf : sv.sock_to_player_.find s with
        | none =>
          exact ⟨sv, drop_connection_absent s sv h.settled.sock_free hf, h,
            by simp [Event.accepted]⟩
        | some p =>
          obtain ⟨h1, h2⟩ := drop_keeps_linked s p sv h (by omega) hf
          exact ⟨_, h1, h2, by simp [dropped_state, Event.accepted]⟩
    obtain ⟨s1, h1, hl1, hlen1⟩ := hstep
    rw [h1] at hlater
    obtain ⟨s2, h2, hl2⟩ := ih s1 hl1 hlater (by omega)
    exact ⟨s2, by simp [run, h1, h2], hl2⟩

/-! ## Shutdown -/

/-- C4, the code at a failing input. Players 1 and 2 are connected on sockets
4 and 5 when the loop ends. `cleanup_sockets` closes both sockets and empties
`sock_to_player_`, but it does not touch `world_`: both players are still in
`World` and no connection is registered. -/
theorem cleanup_leaves_world :
    registry_matches_world two_players ∧
    ∃ sv, cleanup_sockets two_players = .done () sv ∧
      registered sv = [] ∧ sv.closed = [4, 5, 3] ∧
      (world_players sv).map (fun pl => (pl.id, pl.sock)) = [(1, 4), (2, 5)] ∧
      ¬ registry_matches_world sv := by
  refine ⟨fun p => Iff.rfl, { two_players with
      sock_to_player_ := [], listener_ := INVALID_SOCKET, closed := [4, 5, 3] },
    by decide, by decide, by decide, by decide, ?_⟩
  intro h
  have h0 := (h 0).mp (by decide)
  exact absurd h0 (by decide)

/-- The sibling path: `drop_connection` takes the player out of both maps. -/
theorem drop_connection_clears_both :
    ∃ sv, drop_connection 4 two_players = .done () sv ∧
      registered sv = [5] ∧
      (world_players sv).map (fun pl => (pl.id, pl.sock)) = [(2, 5)] :=
  ⟨dropped_state 4 0 two_players, by decide, by decide, by decide⟩

/-! ## Locks during a polling pass -/

theorem trim_line_name (r : Bytes) :
    trim_line (ascii "/name " ++ r) = ascii "/name " ++ trim_line r :=
  trim_line_append _ _ (by decide) (by decide)

/-- A `/name` with a non-empty name handled while `sock_mtx_` is held: the
name is written, and then `broadcast_except` locks `sock_mtx_` a second time.
Nothing has been sent. -/
theorem handle_message_name_relock {F : Type} [Inhabited F] (lib : FloatLib F) (p : Ptr)
    (t : Bytes) (sv : Server F) (ht : trim_line t ≠ []) (hs : sv.sock_mtx_ = true) :
    handle_message lib p (ascii "/name " ++ t) sv =
      .relock (sv.update p (fun pl => { pl with name := trim_line t })) := by
  have hne : ¬ (ascii "/name " ++ trim_line t = []) := by
    intro hc; cases hc
  have h1 : (ascii "/move ").isPrefixOf (ascii "/name " ++ trim_line t) = false := rfl
  have h2 : (ascii "/name ").isPrefixOf (ascii "/name " ++ trim_line t) = true := by simp
  have hd : List.drop 6 (ascii "/name " ++ trim_line t) = trim_line t := rfl
  have hs2 : (sv.update p (fun pl => { pl with name := trim_line t })).sock_mtx_ = true := hs
  simp only [handle_message, trim_line_name, if_neg hne, h1, h2, hd, if_true,
    Bool.false_eq_true, if_false, ne_eq, ht, not_false_eq_true, broadcast_except, hs2]

/-- The loop on one whole frame within the limit. -/
theorem extract_frames_one_frame (P : Bytes) (h : P.length ≤ MAX_PACKET) :
    extract_frames (frame P) = some ⟨[P], true, []⟩ := by
  have hlt : P.length < 2 ^ 32 := lt_of_le_of_lt h max_packet_lt
  have hmod : P.length % 2 ^ 32 = P.length := Nat.mod_eq_of_lt hlt
  rw [extract_frames_frame P (by omega), hmod, List.drop_length, List.take_length,
    extract_frames_short [] (by decide)]
  rfl

theorem call_state_locked {F : Type} [Inhabited F] (sv : Server F) (p : Ptr) (b : Bytes)
    (n : Nat) : (call_state sv p b n).sock_mtx_ = true := rfl

theorem call_state_wire {F : Type} [Inhabited F] (sv : Server F) (p : Ptr) (b : Bytes)
    (n : Nat) : (call_state sv p b n).wire = sv.wire := rfl

theorem call_state_mtx {F : Type} [Inhabited F] (sv : Server F) (p : Ptr) (b : Bytes)
    (n : Nat) : ((call_state sv p b n).deref p).mtx = (sv.deref p).mtx := by
  have h0 : ∀ q, (({ sv with sock_mtx_ := true } : Server F)).deref q = sv.deref q :=
    fun _ => rfl
  unfold call_state
  by_cases hp : p < sv.objects.length
  · have hp1 : p < (({ sv with sock_mtx_ := true } : Server F)).objects.length := hp
    rw [deref_update_same _ _ _ (by rw [update_length]; exact hp1),
      deref_update_same _ _ _ hp1, h0]
  · have hp1 : ¬ p < (({ sv with sock_mtx_ := true } : Server F)).objects.length := hp
    rw [deref_update_invalid _ _ _ (by rw [update_length]; exact hp1),
      deref_update_invalid _ _ _ hp1, h0]

/-- One polling pass in which the first registered socket `s` is readable and
`recv` returns one whole frame with payload `P` for its player, whose buffer
was empty: `do_network_io` takes `sock_mtx_`, `recv_and_process` erases the
frame and calls `handle_message`; if that call locks a mutex the thread
already owns, so does the pass. -/
theorem pass_stops_with_handler {F : Type} [Inhabited F] (lib : FloatLib F) (env : Pass)
    (sv st : Server F) (s : Int) (p : Ptr) (rest : PtrMap) (readable : List Int) (P : Bytes)
    (hs : sv.sock_mtx_ = false) (hmap : sv.sock_to_player_ = (s, p) :: rest)
    (hp : p < sv.objects.length) (hbuf : (sv.deref p).recv_buffer = [])
    (hsel : env.select = .returned readable) (hl : sv.listener_ ∉ readable)
    (hr : s ∈ readable) (hrecv : env.recv s = .bytes (frame P))
    (hlen : P.length ≤ MAX_PACKET)
    (hh : handle_message lib p P (call_state sv p (frame P) P.length) = .relock st) :
    do_network_io lib env sv = .relock st := by
  have hiso : fd_isset sv.listener_ (sv.sock_to_player_.map Prod.fst) readable sv.listener_ =
      false := by
    simp [fd_isset, hl]
  have hiss : fd_isset sv.listener_ (sv.sock_to_player_.map Prod.fst) readable s = true := by
    simp [fd_isset, hmap, hr]
  have hne : ¬ (frame P).length = 0 := by rw [frame_length]; omega
  obtain ⟨r, hr1, hr2⟩ := recv_and_process_eq_deliver lib p (frame P)
    ({ sv with sock_mtx_ := true } : Server F) hp
  have hbuf' : (({ sv with sock_mtx_ := true } : Server F).deref p).recv_buffer = [] := hbuf
  rw [hbuf', recv_chunk, if_neg hne, List.nil_append, extract_frames_one_frame P hlen] at hr1
  cases hr1
  rw [if_neg hne] at hr2
  have hdel : deliver lib p [P] (({ sv with sock_mtx_ := true } : Server F).update p
      (fun pl => { pl with recv_buffer := pl.recv_buffer ++ frame P })) = .relock st := by
    simp only [deliver]
    have : handle_message lib p P (call_state sv p (frame P) P.length) = .relock st := hh
    unfold call_state at this
    rw [this]
    rfl
  rw [hdel] at hr2
  simp only [Run.bind_relock] at hr2
  unfold do_network_io
  rw [hs]
  simp only [Bool.false_eq_true, if_false, hsel, hiso, Run.bind_done]
  rw [hmap]
  simp only [poll_clients]
  rw [← hmap, hiss]
  simp only [if_true, hrecv, hr2, Run.bind_relock, hs, Bool.false_eq_true, if_false]

/-- Every `/say` that arrives as the first frame of a polling pass makes the
pass lock `sock_mtx_` twice: once in `do_network_io`, once in `broadcast`. -/
theorem pass_relocks_on_say {F : Type} [Inhabited F] (lib : FloatLib F) (env : Pass)
    (sv : Server F) (s : Int) (p : Ptr) (rest : PtrMap) (readable : List Int) (t : Bytes)
    (hs : sv.sock_mtx_ = false) (hmap : sv.sock_to_player_ = (s, p) :: rest)
    (hp : p < sv.objects.length) (hbuf : (sv.deref p).recv_buffer = [])
    (hsel : env.select = .returned readable) (hl : sv.listener_ ∉ readable)
    (hr : s ∈ readable) (hrecv : env.recv s = .bytes (frame (ascii "/say " ++ t)))
    (hlen : (ascii "/say " ++ t).length ≤ MAX_PACKET) :
    do_network_io lib env sv =
      .relock (call_state sv p (frame (ascii "/say " ++ t)) (ascii "/say " ++ t).length) :=
  pass_stops_with_handler lib env sv _ s p rest readable _ hs hmap hp hbuf hsel hl hr hrecv hlen
    (handle_message_say_relock lib p t _ (call_state_locked sv p _ _))

/-- Every `/name` with a non-empty name that arrives as the first frame of a
polling pass makes the pass lock `sock_mtx_` twice: once in `do_network_io`,
once in `broadcast_except`. -/
theorem pass_relocks_on_name {F : Type} [Inhabited F] (lib : FloatLib F) (env : Pass)
    (sv : Server F) (s : Int) (p : Ptr) (rest : PtrMap) (readable : List Int) (t : Bytes)
    (ht : trim_line t ≠ [])
    (hs : sv.sock_mtx_ = false) (hmap : sv.sock_to_player_ = (s, p) :: rest)
    (hp : p < sv.objects.length) (hbuf : (sv.deref p).recv_buffer = [])
    (hsel : env.select = .returned readable) (hl : sv.listener_ ∉ readable)
    (hr : s ∈ readable) (hrecv : env.recv s = .bytes (frame (ascii "/name " ++ t)))
    (hlen : (ascii "/name " ++ t).length ≤ MAX_PACKET) :
    do_network_io lib env sv =
      .relock ((call_state sv p (frame (ascii "/name " ++ t))
        (ascii "/name " ++ t).length).update p (fun pl => { pl with name := trim_line t })) :=
  pass_stops_with_handler lib env sv _ s p rest readable _ hs hmap hp hbuf hsel hl hr hrecv hlen
    (handle_message_name_relock lib p t _ ht (call_state_locked sv p _ _))

/-- Every well-formed `/move` that arrives as the first frame of a polling pass
makes the pass lock `sock_mtx_` twice: once in `do_network_io`, once in
`broadcast_except`, and that while the player's own `mtx` is held too. -/
theorem pass_relocks_on_move {F : Type} [Inhabited F] (lib : FloatLib F) (env : Pass)
    (sv : Server F) (s : Int) (p : Ptr) (rest : PtrMap) (readable : List Int) (r : Bytes)
    (x y : F) (hx : extract_two lib (trim_line r) = some (x, y))
    (hm : (sv.deref p).mtx = false)
    (hs : sv.sock_mtx_ = false) (hmap : sv.sock_to_player_ = (s, p) :: rest)
    (hp : p < sv.objects.length) (hbuf : (sv.deref p).recv_buffer = [])
    (hsel : env.select = .returned readable) (hl : sv.listener_ ∉ readable)
    (hr : s ∈ readable) (hrecv : env.recv s = .bytes (frame (ascii "/move " ++ r)))
    (hlen : (ascii "/move " ++ r).length ≤ MAX_PACKET) :
    do_network_io lib env sv =
      .relock (((call_state sv p (frame (ascii "/move " ++ r))
        (ascii "/move " ++ r).length).update p (fun pl => { pl with mtx := true })).update p
          (fun pl => { pl with pos := ⟨x, y⟩ })) :=
  pass_stops_with_handler lib env sv _ s p rest readable _ hs hmap hp hbuf hsel hl hr hrecv hlen
    (handle_message_move_relock lib p r _ x y hx
      (by rw [call_state_mtx]; exact hm) (call_state_locked sv p _ _))

/-- With `sock_mtx_` free and the player's `mtx` free, `handle_message` returns
for every payload: the player's `mtx` is taken once and released, and
`sock_mtx_` is taken once by the broadcast. The second `lock()` of a polling
pass is therefore always on `sock_mtx_`, never on a player's `mtx`. -/
theorem handle_message_returns_unlocked {F : Type} [Inhabited F] (lib : FloatLib F) (p : Ptr)
    (msg : Bytes) (sv : Server F) (hs : sv.sock_mtx_ = false) (hm : (sv.deref p).mtx = false) :
    ∃ sv', handle_message lib p msg sv = .done () sv' := by
  unfold handle_message
  dsimp only
  by_cases h1 : trim_line msg = []
  · rw [if_pos h1]
    exact ⟨_, rfl⟩
  rw [if_neg h1]
  by_cases h2 : (ascii "/move ").isPrefixOf (trim_line msg) = true
  · rw [if_pos h2]
    cases hx : extract_two lib (List.drop 6 (trim_line msg)) with
    | none => exact ⟨_, rfl⟩
    | some xy =>
      obtain ⟨x, y⟩ := xy
      dsimp only
      rw [hm]
      simp only [Bool.false_eq_true, if_false]
      rw [broadcast_except_eq _ _ _ (show ((sv.update p (fun pl => { pl with mtx := true })).update
        p (fun pl => { pl with pos := ⟨x, y⟩ })).sock_mtx_ = false from hs)]
      exact ⟨_, rfl⟩
  rw [if_neg h2]
  by_cases h3 : (ascii "/name ").isPrefixOf (trim_line msg) = true
  · rw [if_pos h3]
    by_cases h4 : List.drop 6 (trim_line msg) ≠ []
    · rw [if_pos h4]
      rw [broadcast_except_eq _ _ _ (show (sv.update p
        (fun pl => { pl with name := List.drop 6 (trim_line msg) })).sock_mtx_ = false from hs)]
      exact ⟨_, rfl⟩
    · rw [if_neg h4]
      exact ⟨_, rfl⟩
  rw [if_neg h3]
  by_cases h5 : (ascii "/say ").isPrefixOf (trim_line msg) = true
  · rw [if_pos h5, broadcast_eq _ sv hs]
    exact ⟨_, rfl⟩
  · rw [if_neg h5]
    exact ⟨_, rfl⟩

/-- A pass whose only frame is a command that does not broadcast returns: the
malformed `/move` is answered on socket 4 under the lock of `do_network_io`,
and the lock is released. -/
theorem pass_with_bad_move_returns :
    do_network_io fixed6_lib (one_frame_on_4 (ascii "/move abc 1")) two_players =
      .done () { two_players with
        wire := two_players.wire ++ [(4, frame (ascii "ERROR bad /move format\n"))] } := by
  decide

/-- C11, the code at failing inputs. Players 1 and 2 are connected on sockets
4 and 5, no lock is held, and socket 4 delivers one frame. `do_network_io`
takes `sock_mtx_` for its loop over `sock_to_player_` and calls
`recv_and_process` and `handle_message` inside it. For `/name Bob` the name is
written and `broadcast_except` calls `lock()` on `sock_mtx_`, which the thread
owns; for `/say hello` it is `broadcast`; for `/move 1 2` the position is
written under the player's `mtx` and `broadcast_except` does the same. In
each case the pass ends on the second `lock()` with `sock_mtx_` held and
nothing sent. -/
theorem polling_pass_relocks_sock_mtx :
    do_network_io fixed6_lib (one_frame_on_4 (ascii "/name Bob")) two_players =
      .relock { two_players with
        sock_mtx_ := true,
        objects := [⟨1, 4, ascii "Bob", ⟨⟨0⟩, ⟨0⟩⟩, [], false⟩,
                    ⟨2, 5, ascii "Player2", ⟨⟨0⟩, ⟨0⟩⟩, [], false⟩] } ∧
    do_network_io fixed6_lib (one_frame_on_4 (ascii "/say hello\n")) two_players =
      .relock { two_players with sock_mtx_ := true } ∧
    do_network_io fixed6_lib (one_frame_on_4 (ascii "/move 1 2\r\n")) two_players =
      .relock { two_players with
        sock_mtx_ := true,
        objects := [⟨1, 4, ascii "Player1", ⟨⟨1000000⟩, ⟨2000000⟩⟩, [], true⟩,
                    ⟨2, 5, ascii "Player2", ⟨⟨0⟩, ⟨0⟩⟩, [], false⟩] } := by
  refine ⟨?_, ?_, ?_⟩
  · decide
  · decide
  · decide

end MmoServer
